import Mathlib

/-!
Verification development for the fast-marching-method header
(`include/thinks/fastMarchingMethod.hpp`).

Modelling conventions:
* An N-dimensional integer coordinate (`std::array<std::int32_t, N>`) is a
  `List ℤ`; a grid size (`std::array<std::size_t, N>`) is a `List ℕ`.
* Floating-point scalars are modelled by an arbitrary `LinearOrderedField K`
  (instantiated at `ℝ` or `ℚ` in concrete statements); `std::sqrt` is an
  explicit function parameter `sq : K → K` (instantiated at `Real.sqrt`).
* The sentinel `std::numeric_limits<T>::max()` ("unfrozen") is modelled by
  `Option K`: a cell holds `none` when unfrozen and `some d` when frozen,
  so `frozen d ↔ d < max` becomes `Option.isSome`.
* A distance grid is a total function `List ℤ → Option K` together with its
  size; `throw` of a `std::runtime_error` is an `Except Err` error value.
* Loops that are not structurally recursive (the marching loop, the
  flood-fill stack loop) are written with an explicit fuel argument
  returning `Option`; the public wrappers supply a fuel that is proved (or
  in the flood-fill case, chosen) large enough, so the wrappers compute.
-/

set_option maxHeartbeats 1000000
set_option maxRecDepth 100000

namespace FMM

/-- Error kinds corresponding to the `std::runtime_error` throws of the
source (messages dropped, one constructor per throw site family). -/
inductive Err : Type where
  | invalidGridSize
  | invalidGridSpacing
  | invalidSpeed
  | emptyIndices
  | sizeMismatch
  | indexOutsideGrid
  | invalidDistance
  | duplicateIndex
  | wholeGridFrozen
  | openComponent
  | negativeDiscriminant
  | negativeDistance
  | outOfBoundsAccess
  deriving DecidableEq, Repr

/-- Product of the elements of a size array (`LinearSize`). -/
def LinearSize (sz : List ℕ) : ℕ := sz.prod

/-- The source's `Inside`: every component `i` satisfies
`0 ≤ index[i] < size[i]` (and the tuple has the grid's dimension). -/
def Inside : List ℤ → List ℕ → Bool
  | [], [] => true
  | x :: xs, s :: ss => decide (0 ≤ x) && decide (x < (s : ℤ)) && Inside xs ss
  | _, _ => false

/-- Add an offset to component `i` of an index
(`neighbor_index[i] += offset`). -/
def modifyIdx : List ℤ → ℕ → ℤ → List ℤ
  | [], _, _ => []
  | x :: xs, 0, off => (x + off) :: xs
  | x :: xs, n + 1, off => x :: modifyIdx xs n off

/-- Componentwise sum of an index and an offset tuple. -/
def addIdx (x off : List ℤ) : List ℤ := List.zipWith (· + ·) x off

/-- The source's `GridStrides`: `strides[i-1] = size[0] * … * size[i-1]`
for `i = 1 … N-1` (an array of `N-1` cumulative products). -/
def GridStrides (sz : List ℕ) : List ℕ :=
  (List.range (sz.length - 1)).map (fun j => (sz.take (j + 1)).prod)

/-- The source's `GridLinearIndex`:
`k = index[0] + Σ_{i≥1} index[i] * strides[i-1]` (over ℤ; the source does
unchecked `size_t` arithmetic, exact for in-bounds indices). -/
def GridLinearIndex (index : List ℤ) (strides : List ℕ) : ℤ :=
  index.headD 0 +
    (List.zipWith (fun (x : ℤ) (s : ℕ) => x * (s : ℤ)) index.tail strides).sum

/-- Horner form of the linear index; used to reason about
`GridLinearIndex` by structural induction. -/
def hornerIdx : List ℤ → List ℕ → ℤ
  | [], _ => 0
  | x :: _, [] => x
  | x :: xs, s :: ss => x + (s : ℤ) * hornerIdx xs ss

/-- All in-bounds indices of a grid, first axis slowest (the enumeration
order of the source's `IndexIterator`). -/
def allIndices : List ℕ → List (List ℤ)
  | [] => [[]]
  | s :: ss => (List.range s).flatMap (fun v => (allIndices ss).map ((v : ℤ) :: ·))

section Solver

variable {K : Type} [LinearOrderedField K]

/-- The source's `Squared`. -/
def Squared (x : K) : K := x * x

/-- The source's `InverseSquared`. -/
def InverseSquared (x : K) : K := 1 / Squared x

/-- The source's `frozen`: a cell is frozen iff its value is strictly less
than the sentinel, i.e. iff the modelled cell holds `some` value. -/
def frozen (d : Option K) : Bool := d.isSome

/-- One update of the source's running per-axis minimum
(`if (neighbor_distance < neighbor_min_distance)`), with `none` playing
the sentinel `numeric_limits<T>::max()`. -/
def stepMin (acc v : Option K) : Option K :=
  match v, acc with
  | none, a => a
  | some d, none => some d
  | some d, some m => if d < m then some d else some m

/-- The inner loop of the source's `SolveEikonal` for axis `i`: scan the
two face neighbors (offset −1 then +1, the source's `neighbor_offsets`)
and keep the smallest frozen in-bounds value. -/
def axisMinFold (g : List ℤ → Option K) (sz : List ℕ) (x : List ℤ) (i : ℕ) :
    Option K :=
  [(-1 : ℤ), 1].foldl
    (fun acc off =>
      let nb := modifyIdx x i off
      if Inside nb sz then stepMin acc (g nb) else acc)
    none

/-- The source's `SolveEikonalQuadratic` on coefficients `(q0, q1, q2)`:
error on a negative discriminant, otherwise the root
`(−q1 + sqrt(disc)) / (2 q2)`, error if that root is negative. -/
def SolveEikonalQuadratic (sq : K → K) (q : K × K × K) : Except Err K :=
  let disc := q.2.1 * q.2.1 - 4 * q.2.2 * q.1
  if disc < 0 then .error .negativeDiscriminant
  else
    let root := (-q.2.1 + sq disc) / (2 * q.2.2)
    if root < 0 then .error .negativeDistance
    else .ok root

/-- The source's first-order `SolveEikonal`: accumulate the quadratic
coefficients over all axes starting from `(−1/speed², 0, 0)` and solve. -/
def SolveEikonal (sq : K → K) (index : List ℤ) (g : List ℤ → Option K)
    (speed : K) (spacing : List K) (sz : List ℕ) : Except Err K :=
  let q := (List.range sz.length).foldl
    (fun q i =>
      match axisMinFold g sz index i with
      | none => q
      | some m =>
        let inv := InverseSquared (spacing.getD i 1)
        (q.1 + Squared m * inv, q.2.1 + (-2) * m * inv, q.2.2 + inv))
    (-1 / Squared speed, 0, 0)
  SolveEikonalQuadratic sq q

/-- The source's two-step-neighbor check in `HighAccuracySolveEikonal`:
executed when the one-step neighbor `nb` (value `d`) lowered the running
minimum; overwrites `m2` when the neighbor two steps away in the same
direction is frozen with value `≤ d`, and keeps the previous `m2`
otherwise (the source never resets `neighbor_min_distance2`). -/
def haTwoStep (g : List ℤ → Option K) (sz : List ℕ) (nb : List ℤ) (i : ℕ)
    (off : ℤ) (d : K) (m2 : Option K) : Option K :=
  let nb2 := modifyIdx nb i off
  if Inside nb2 sz then
    match g nb2 with
    | some d2 => if d2 ≤ d then some d2 else m2
    | none => m2
  else m2

/-- The inner loop of the source's `HighAccuracySolveEikonal` for axis
`i`: the pair (running one-step minimum, last adopted two-step value). -/
def haAxisFold (g : List ℤ → Option K) (sz : List ℕ) (x : List ℤ) (i : ℕ) :
    Option K × Option K :=
  [(-1 : ℤ), 1].foldl
    (fun st off =>
      let nb := modifyIdx x i off
      if Inside nb sz then
        match g nb with
        | none => st
        | some d =>
          match st.1 with
          | none => (some d, haTwoStep g sz nb i off d st.2)
          | some m =>
            if d < m then (some d, haTwoStep g sz nb i off d st.2) else st
      else st)
    (none, none)

/-- The source's `HighAccuracySolveEikonal`. -/
def HighAccuracySolveEikonal (sq : K → K) (index : List ℤ)
    (g : List ℤ → Option K) (speed : K) (spacing : List K) (sz : List ℕ) :
    Except Err K :=
  let q := (List.range sz.length).foldl
    (fun q i =>
      match haAxisFold g sz index i with
      | (none, _) => q
      | (some m1, m2opt) =>
        match m2opt with
        | some m2 =>
          let alpha := 9 / (4 * Squared (spacing.getD i 1))
          let t := (1 / 3) * (4 * m1 - m2)
          (q.1 + Squared t * alpha, q.2.1 + (-2) * t * alpha, q.2.2 + alpha)
        | none =>
          let inv := InverseSquared (spacing.getD i 1)
          (q.1 + Squared m1 * inv, q.2.1 + (-2) * m1 * inv, q.2.2 + inv))
    (-1 / Squared speed, 0, 0)
  SolveEikonalQuadratic sq q

/-- Reading a face neighbor the way the claims describe it: the cell's
value when in bounds and frozen, `none` otherwise. -/
def readFrozen (g : List ℤ → Option K) (sz : List ℕ) (c : List ℤ) :
    Option K :=
  if Inside c sz then g c else none

/-- Claim-side formulation (C1): the per-axis minimum `m_i` over the
frozen in-bounds face neighbors of `x` along axis `i`. -/
def ClaimAxisMin (g : List ℤ → Option K) (sz : List ℕ) (x : List ℤ)
    (i : ℕ) : Option K :=
  match readFrozen g sz (modifyIdx x i (-1)), readFrozen g sz (modifyIdx x i 1) with
  | none, none => none
  | some a, none => some a
  | none, some b => some b
  | some a, some b => some (min a b)

/-- Claim-side first-order contribution of one axis:
`a0 += m²/h², a1 += −2m/h², a2 += 1/h²`. -/
def foTerm (q : K × K × K) (m h : K) : K × K × K :=
  (q.1 + Squared m / Squared h, q.2.1 + (-2) * m / Squared h,
    q.2.2 + 1 / Squared h)

/-- Claim-side second-order contribution of one axis: with
`α = 9/(4h²)` and `t = (4m₁ − m₂)/3`,
`a0 += t²·α, a1 += −2tα, a2 += α`. -/
def soTerm (q : K × K × K) (m1 m2 h : K) : K × K × K :=
  (q.1 + Squared ((4 * m1 - m2) / 3) * (9 / (4 * Squared h)),
    q.2.1 + (-2) * ((4 * m1 - m2) / 3) * (9 / (4 * Squared h)),
    q.2.2 + 9 / (4 * Squared h))

/-- Claim-side formulation (C1): the accumulated first-order quadratic
coefficients, starting from `(−1/s², 0, 0)`, with axes lacking a frozen
face neighbor contributing nothing. -/
def ClaimCoeffs (g : List ℤ → Option K) (sz : List ℕ) (x : List ℤ)
    (speed : K) (spacing : List K) : K × K × K :=
  (List.range sz.length).foldl
    (fun q i =>
      match ClaimAxisMin g sz x i with
      | none => q
      | some m => foTerm q m (spacing.getD i 1))
    (-1 / Squared speed, 0, 0)

/-- Claim-side formulation (C2): the minimum one-step frozen face
neighbor for an axis together with the direction it is found in
(direction −1 on ties, matching the strict `<` of the source's scan). -/
def ClaimHighAxisMin (g : List ℤ → Option K) (sz : List ℕ) (x : List ℤ)
    (i : ℕ) : Option (K × ℤ) :=
  match readFrozen g sz (modifyIdx x i (-1)), readFrozen g sz (modifyIdx x i 1) with
  | none, none => none
  | some a, none => some (a, -1)
  | none, some b => some (b, 1)
  | some a, some b => if b < a then some (b, 1) else some (a, -1)

/-- Claim-side formulation (C2): high-order coefficients where each axis
uses the two-step neighbor along the same direction as its one-step
minimum, exactly when that two-step neighbor is frozen with `m₂ ≤ m₁`,
falling back to the first-order contribution otherwise. -/
def ClaimHighCoeffs (g : List ℤ → Option K) (sz : List ℕ) (x : List ℤ)
    (speed : K) (spacing : List K) : K × K × K :=
  (List.range sz.length).foldl
    (fun q i =>
      match ClaimHighAxisMin g sz x i with
      | none => q
      | some (m1, dir) =>
        match readFrozen g sz (modifyIdx x i (2 * dir)) with
        | some m2 =>
          if m2 ≤ m1 then soTerm q m1 m2 (spacing.getD i 1)
          else foTerm q m1 (spacing.getD i 1)
        | none => foTerm q m1 (spacing.getD i 1))
    (-1 / Squared speed, 0, 0)

/-- Claim-side formulation (C2): the full claimed high-order solver
(claimed coefficients fed to the quadratic solver). -/
def ClaimHighSolve (sq : K → K) (index : List ℤ) (g : List ℤ → Option K)
    (speed : K) (spacing : List K) (sz : List ℕ) : Except Err K :=
  SolveEikonalQuadratic sq (ClaimHighCoeffs g sz index speed spacing)

end Solver

section Band

variable {K : Type} [LinearOrderedField K]

/-- Pointwise update of a distance grid (one `Cell(index) = value`
write of the source). -/
def gUpdate (g : List ℤ → Option K) (x : List ℤ) (v : Option K) :
    List ℤ → Option K :=
  fun y => if y = x then v else g y

/-- Lexicographic strict order on index tuples, used only to make the
priority queue's tie-breaking among equal distances deterministic (the
source's `std::priority_queue` breaks ties in an unspecified but
deterministic way; the spec allows any such order). -/
def idxLtb : List ℤ → List ℤ → Bool
  | [], [] => false
  | [], _ :: _ => true
  | _ :: _, [] => false
  | x :: xs, y :: ys => decide (x < y) || (decide (x = y) && idxLtb xs ys)

/-- Strict order on narrow-band entries: by distance first (the heap's
`lhs.first > rhs.first` comparator), ties broken by index. -/
def entryLtb (a b : K × List ℤ) : Bool :=
  decide (a.1 < b.1) || (decide (a.1 = b.1) && idxLtb a.2 b.2)

/-- The smallest entry of the nonempty band `e :: l`. -/
def pickMin (e : K × List ℤ) (l : List (K × List ℤ)) : K × List ℤ :=
  l.foldl (fun best c => if entryLtb c best then c else best) e

/-- The narrow band's `Pop`: remove and return a smallest entry
(`none` when the band `empty()`). -/
def minEntry : List (K × List ℤ) → Option ((K × List ℤ) × List (K × List ℤ))
  | [] => none
  | e :: rest => some (pickMin e rest, (e :: rest).erase (pickMin e rest))

/-- The face-neighbor candidates of a cell in the source's loop order
(`for i < N: for offset in {-1, +1}`). -/
def faceCandidates (sz : List ℕ) (x : List ℤ) : List (List ℤ) :=
  (List.range sz.length).flatMap
    (fun i => [modifyIdx x i (-1), modifyIdx x i 1])

/-- The candidate loop of the source's `UpdateNeighbors`: solve every
in-bounds non-frozen face neighbor and collect the entries to push. A
solver failure is a C++ throw: it aborts the whole update (entries the
source already pushed are dead, because the marching loop propagates the
same exception before ever popping again). -/
def UpdateNeighborsGo (solve : List ℤ → Except Err K)
    (g : List ℤ → Option K) (sz : List ℕ) :
    List (List ℤ) → Except Err (List (K × List ℤ))
  | [] => .ok []
  | c :: rest =>
    if Inside c sz && !(g c).isSome then
      match solve c with
      | .error e => .error e
      | .ok u => (UpdateNeighborsGo solve g sz rest).map ((u, c) :: ·)
    else UpdateNeighborsGo solve g sz rest

/-- The source's `UpdateNeighbors` for the focal cell `index`. -/
def UpdateNeighbors (solver : List ℤ → (List ℤ → Option K) → Except Err K)
    (sz : List ℕ) (index : List ℤ) (g : List ℤ → Option K) :
    Except Err (List (K × List ℤ)) :=
  UpdateNeighborsGo (fun c => solver c g) g sz (faceCandidates sz index)

/-- Count of unfrozen in-bounds cells of a grid. -/
def unfrozenCount (sz : List ℕ) (g : List ℤ → Option K) : ℕ :=
  (allIndices sz).countP (fun c => !(g c).isSome)

/-- Fuel-indexed core of the source's `MarchNarrowBand` loop, returning
the final grid (or the propagated solver error) together with the number
of loop iterations executed; `none` means the fuel ran out (the public
wrapper's fuel is proved sufficient). Popping an out-of-bounds index
would be an out-of-bounds `Cell` access in the source (its `assert`
fires); it is modelled as an error. -/
def marchFuelO (solver : List ℤ → (List ℤ → Option K) → Except Err K)
    (sz : List ℕ) :
    ℕ → List (K × List ℤ) → (List ℤ → Option K) →
    Option ((Except Err (List ℤ → Option K)) × ℕ)
  | 0, _, _ => none
  | fuel + 1, band, g =>
    match minEntry band with
    | none => some (.ok g, 0)
    | some ((d, x), rest) =>
      if Inside x sz then
        if (g x).isSome then
          (marchFuelO solver sz fuel rest g).map (fun r => (r.1, r.2 + 1))
        else
          let g' := gUpdate g x (some d)
          match UpdateNeighbors solver sz x g' with
          | .error e => some (.error e, 1)
          | .ok pushes =>
            (marchFuelO solver sz fuel (rest ++ pushes) g').map
              (fun r => (r.1, r.2 + 1))
      else some (.error .outOfBoundsAccess, 1)

/-- Fuel sufficient for `marchFuelO` to drain the band: each iteration
pops one entry, and each of the at most `unfrozenCount` freezes pushes at
most `2N` new entries. -/
def marchFuelBound (sz : List ℕ) (band : List (K × List ℤ))
    (g : List ℤ → Option K) : ℕ :=
  band.length + (2 * sz.length + 1) * unfrozenCount sz g + 1

/-- The source's `MarchNarrowBand` (plus the iteration count); the `getD`
fallback is unreachable because `marchFuelBound` is proved sufficient. -/
def MarchNarrowBand (solver : List ℤ → (List ℤ → Option K) → Except Err K)
    (sz : List ℕ) (band : List (K × List ℤ)) (g : List ℤ → Option K) :
    (Except Err (List ℤ → Option K)) × ℕ :=
  (marchFuelO solver sz (marchFuelBound sz band g) band g).getD
    (.error .outOfBoundsAccess, 0)

end Band

section Boundary

variable {K : Type} [LinearOrderedField K]

/-- The per-seed loop of the source's `SetBoundaryCondition`, returning
the possibly partially written grid together with the error raised, if
any: the source writes `multiplier * distance` into the caller's buffer
as it validates each seed in turn. -/
def SetBoundaryConditionAux (mult : K) (pred : K → Bool) (sz : List ℕ) :
    List (List ℤ × K) → (List ℤ → Option K) →
    ((List ℤ → Option K) × Option Err)
  | [], g => (g, none)
  | (i, d) :: rest, g =>
    if Inside i sz then
      if pred d then
        if (g i).isSome then (g, some .duplicateIndex)
        else SetBoundaryConditionAux mult pred sz rest
          (gUpdate g i (some (mult * d)))
      else (g, some .invalidDistance)
    else (g, some .indexOutsideGrid)

/-- Specification-side description of the loop's writes: install
`mult * d` at each seed index in list order. -/
def writeSeeds (mult : K) (pairs : List (List ℤ × K))
    (g : List ℤ → Option K) : List ℤ → Option K :=
  pairs.foldl (fun g p => gUpdate g p.1 (some (mult * p.2))) g

/-- The source's `SetBoundaryCondition`: empty and length-mismatch checks
first, then the validating write loop, then the whole-grid check. -/
def SetBoundaryCondition (indices : List (List ℤ)) (distances : List K)
    (mult : K) (pred : K → Bool) (sz : List ℕ) (g : List ℤ → Option K) :
    Except Err (List ℤ → Option K) :=
  if indices.isEmpty then .error .emptyIndices
  else if indices.length ≠ distances.length then .error .sizeMismatch
  else
    match SetBoundaryConditionAux mult pred sz (indices.zip distances) g with
    | (_, some e) => .error e
    | (g', none) =>
      if indices.length = LinearSize sz then .error .wholeGridFrozen
      else .ok g'

/-- The candidate loop of the solver-seeded `InitialUnsignedNarrowBand`:
visit the face-neighbor candidates of the frozen cells in order, and push
one entry (solver value, cell) for each in-bounds candidate not yet
labelled, labelling it (the source's scratch `NarrowBandCell` grid). -/
def InitialBandGo (solve : List ℤ → Except Err K) (sz : List ℕ) :
    List (List ℤ) → Finset (List ℤ) → Except Err (List (K × List ℤ))
  | [], _ => .ok []
  | c :: rest, v =>
    if Inside c sz && decide (c ∉ v) then
      match solve c with
      | .error e => .error e
      | .ok u => (InitialBandGo solve sz rest (insert c v)).map ((u, c) :: ·)
    else InitialBandGo solve sz rest v

/-- The cells `InitialBandGo` actually pushes: the in-bounds candidates
in first-occurrence order relative to the scratch label grid (used to
factor `InitialBandGo` into dedup followed by solving). -/
def dedupInsideGo (sz : List ℕ) :
    List (List ℤ) → Finset (List ℤ) → List (List ℤ)
  | [], _ => []
  | c :: rest, v =>
    if Inside c sz && decide (c ∉ v) then
      c :: dedupInsideGo sz rest (insert c v)
    else dedupInsideGo sz rest v

/-- Solving a fixed list of cells in order (the narrow-band push loop
with the dedup already performed). -/
def bandOf (solve : List ℤ → Except Err K) :
    List (List ℤ) → Except Err (List (K × List ℤ))
  | [] => .ok []
  | c :: rest =>
    match solve c with
    | .error e => .error e
    | .ok u => (bandOf solve rest).map ((u, c) :: ·)

/-- The source's `InitialUnsignedNarrowBand` (solver version): the
in-bounds face neighbors of the frozen cells, each pushed once with a
solver value. -/
def InitialUnsignedNarrowBand (solve : List ℤ → Except Err K) (sz : List ℕ)
    (frozenIndices : List (List ℤ)) : Except Err (List (K × List ℤ)) :=
  InitialBandGo solve sz (frozenIndices.flatMap (faceCandidates sz)) ∅

/-- The source's `UnsignedDistance` driver: allocate an all-sentinel
grid, install the seeds (multiplier `+1`, predicate `0 ≤ d`; the
source's `!isnan(d) && frozen(d)` conjuncts are vacuous for exact
scalars), build the initial narrow band, march it, return the grid. -/
def UnsignedDistance (solver : List ℤ → (List ℤ → Option K) → Except Err K)
    (sz : List ℕ) (frozenIndices : List (List ℤ))
    (frozenDistances : List K) : Except Err (List ℤ → Option K) :=
  match SetBoundaryCondition frozenIndices frozenDistances 1
    (fun d => decide (0 ≤ d)) sz (fun _ => (none : Option K)) with
  | .error e => .error e
  | .ok g =>
    match InitialUnsignedNarrowBand (fun c => solver c g) sz
        frozenIndices with
    | .error e => .error e
    | .ok band => (MarchNarrowBand solver sz band g).1

end Boundary

section Signed

/-- Label states of the source's `ConnectedComponents` grid. -/
inductive LabelCell : Type where
  | background
  | foreground
  | labelled
  deriving DecidableEq, Repr

/-- Label states of the source's `DilationBands` grid. -/
inductive DilationCell : Type where
  | background
  | foreground
  | dilated
  deriving DecidableEq, Repr

/-- Label states of the source's `InitialSignedNarrowBands` grid
(`kBackground`, `kFrozen`, `kNarrowBand`). -/
inductive NarrowBandCell : Type where
  | background
  | frozenCell
  | narrowBand
  deriving DecidableEq, Repr

/-- Pointwise update of a label function (one label-grid write). -/
def fUpdate {α : Type} (f : List ℤ → α) (x : List ℤ) (v : α) :
    List ℤ → α :=
  fun y => if y = x then v else f y

/-- All tuples over `{−1, 0, +1}` of length `n`, first component slowest
(the source's `IndexIterator` enumeration order). -/
def signTuples : ℕ → List (List ℤ)
  | 0 => [[]]
  | n + 1 => ([-1, 0, 1] : List ℤ).flatMap (fun d => (signTuples n).map (d :: ·))

/-- The source's `VertexNeighborOffsets`: the `3^N − 1` nonzero tuples. -/
def VertexNeighborOffsets (n : ℕ) : List (List ℤ) :=
  (signTuples n).filter (fun t => !t.all (· == 0))

/-- The unit offset `v · e_i` in `n` dimensions. -/
def unitOffset (n i : ℕ) (v : ℤ) : List ℤ :=
  (List.range n).map (fun j => if j = i then v else 0)

/-- The source's `FaceNeighborOffsets`: for each axis `i`, `+e_i` then
`−e_i`. -/
def FaceNeighborOffsets (n : ℕ) : List (List ℤ) :=
  (List.range n).flatMap (fun i => [unitOffset n i 1, unitOffset n i (-1)])

/-- Fuel-indexed stack loop of the source's flood fill: pop the top
index, mark its still-foreground in-bounds neighbors as labelled, record
them in the component, and push them (`std::stack`, so they pop in
reverse of the offset order); `none` means the fuel ran out. -/
def floodO (offsets : List (List ℤ)) (sz : List ℕ) :
    ℕ → List (List ℤ) → (List ℤ → LabelCell) → List (List ℤ) →
    Option ((List ℤ → LabelCell) × List (List ℤ))
  | 0, _, _, _ => none
  | _ + 1, [], lab, comp => some (lab, comp)
  | fuel + 1, top :: rest, lab, comp =>
    let step := offsets.foldl
      (fun (st : (List ℤ → LabelCell) × List (List ℤ)) off =>
        let nb := addIdx top off
        if Inside nb sz ∧ st.1 nb = .foreground then
          (fUpdate st.1 nb .labelled, st.2 ++ [nb])
        else st)
      (lab, [])
    floodO offsets sz fuel (step.2.reverse ++ rest) step.1 (comp ++ step.2)

/-- The flood fill with a sufficient fuel (each iteration pops one entry
and pushes only cells it flips from foreground to labelled, of which
there are at most `LinearSize sz`). -/
def flood (offsets : List (List ℤ)) (sz : List ℕ) (stack : List (List ℤ))
    (lab : List ℤ → LabelCell) (comp : List (List ℤ)) :
    (List ℤ → LabelCell) × List (List ℤ) :=
  (floodO offsets sz
    ((offsets.length + 1) * LinearSize sz + stack.length + 1)
    stack lab comp).getD (lab, comp)

/-- The source's `ConnectedComponents`: mark the given indices as
foreground, then, scanning the indices in list order, flood-fill one
component from each index still marked foreground. -/
def ConnectedComponents (indices : List (List ℤ)) (sz : List ℕ)
    (offsets : List (List ℤ)) : List (List (List ℤ)) :=
  let lab0 : List ℤ → LabelCell :=
    fun x => if x ∈ indices then .foreground else .background
  (indices.foldl
    (fun (st : (List ℤ → LabelCell) × List (List (List ℤ))) index =>
      if st.1 index = .foreground then
        let r := flood offsets sz [index] (fUpdate st.1 index .labelled)
          [index]
        (r.1, st.2 ++ [r.2])
      else st)
    (lab0, [])).2

/-- Shift an index into the one-cell-padded dilation grid. -/
def padIdx (x : List ℤ) : List ℤ := x.map (· + 1)

/-- Shift a padded index back to the original grid. -/
def unpadIdx (x : List ℤ) : List ℤ := x.map (· - 1)

/-- The source's `DilationBands`: pad the grid by one cell per side, mark
the component cells as foreground, mark every background vertex neighbor
of a component cell as dilated (collected in discovery order), split the
dilated cells into face-connected components, unpad, drop the cells that
fall outside the original grid, and drop bands that become empty. -/
def DilationBands (indices : List (List ℤ)) (sz : List ℕ) :
    List (List (List ℤ)) :=
  if indices.isEmpty then []
  else
    let psz := sz.map (· + 2)
    let d0 : List ℤ → DilationCell :=
      fun y => if y ∈ indices.map padIdx then .foreground else .background
    let offs := VertexNeighborOffsets sz.length
    let r := indices.foldl
      (fun (st : (List ℤ → DilationCell) × List (List ℤ)) gi =>
        offs.foldl
          (fun (st : (List ℤ → DilationCell) × List (List ℤ)) off =>
            let nb := addIdx (padIdx gi) off
            if st.1 nb = .background then
              (fUpdate st.1 nb .dilated, st.2 ++ [nb])
            else st)
          st)
      (d0, [])
    let comps := ConnectedComponents r.2 psz (FaceNeighborOffsets sz.length)
    comps.filterMap (fun comp =>
      let band := (comp.map unpadIdx).filter (fun gi => Inside gi sz)
      if band.isEmpty then none else some band)

/-- The source's `BoundingBox` (per-axis min/max fold from the int32
sentinels; the source throws on an empty index list, callers only pass
nonempty bands). -/
def BoundingBox (n : ℕ) (indices : List (List ℤ)) : List (ℤ × ℤ) :=
  indices.foldl
    (fun bb x =>
      List.zipWith (fun (p : ℤ × ℤ) c => (min p.1 c, max p.2 c)) bb x)
    ((List.range n).map (fun _ => ((2147483647 : ℤ), (-2147483648 : ℤ))))

/-- The source's `HyperVolume` of a bounding box. -/
def HyperVolume (bbox : List (ℤ × ℤ)) : ℤ :=
  (bbox.map (fun p => p.2 - p.1 + 1)).prod

/-- The source's descending sort of (band index, bbox hypervolume) pairs
(`std::sort` with `lhs.second > rhs.second`; the tie order among equal
hypervolumes is unspecified in the source, the model sorts stably). -/
def bandAreasSorted (bands : List (List (List ℤ))) (n : ℕ) :
    List (ℕ × ℤ) :=
  List.insertionSort (fun a b => b.2 ≤ a.2)
    ((List.range bands.length).map
      (fun i => (i, HyperVolume (BoundingBox n (bands.getD i [])))))

/-- The frozen-face-neighbor scan of `InitialSignedNarrowBands` (axis 0
first, offset −1 before +1, stopping at the first hit). The source reads
the neighbor label cell without a bounds check; the modelled label
function simply returns `background` outside the written cells. -/
def hasFrozenFaceNeighbor (lab : List ℤ → NarrowBandCell) (n : ℕ)
    (x : List ℤ) : Bool :=
  (List.range n).any (fun i =>
    ([(-1 : ℤ), 1]).any (fun off =>
      decide (lab (modifyIdx x i off) = .frozenCell)))

/-- A face neighbor of `x` is one of the given seed indices (claim-side
phrasing of "touches a seed by face adjacency"). -/
def hasSeedFaceNeighbor (seeds : List (List ℤ)) (n : ℕ) (x : List ℤ) :
    Bool :=
  (List.range n).any (fun i =>
    ([(-1 : ℤ), 1]).any (fun off => decide (modifyIdx x i off ∈ seeds)))

/-- The outer-band cell loop of `InitialSignedNarrowBands`: mark (as
narrow band) and collect each background cell that has a frozen face
neighbor; the collected cells go to the outside list. -/
def outerBandGo (n : ℕ) :
    List (List ℤ) → ((List ℤ → NarrowBandCell) × List (List ℤ)) →
    ((List ℤ → NarrowBandCell) × List (List ℤ))
  | [], st => st
  | c :: rest, st =>
    if st.1 c = .background ∧ hasFrozenFaceNeighbor st.1 n c then
      outerBandGo n rest (fUpdate st.1 c .narrowBand, st.2 ++ [c])
    else outerBandGo n rest st

/-- The inner-band cell loop of `InitialSignedNarrowBands`: mark and
collect each cell that has a frozen face neighbor (here the source checks
`kBackground` only with an `assert`); the collected cells go to the
inside list. -/
def innerBandGo (n : ℕ) :
    List (List ℤ) → ((List ℤ → NarrowBandCell) × List (List ℤ)) →
    ((List ℤ → NarrowBandCell) × List (List ℤ))
  | [], st => st
  | c :: rest, st =>
    if hasFrozenFaceNeighbor st.1 n c then
      innerBandGo n rest (fUpdate st.1 c .narrowBand, st.2 ++ [c])
    else innerBandGo n rest st

/-- The loop over the non-largest dilation bands (`k = 1 …` in the
sorted order). -/
def innerBandsGo (n : ℕ) (bands : List (List (List ℤ))) :
    List (ℕ × ℤ) → ((List ℤ → NarrowBandCell) × List (List ℤ)) →
    ((List ℤ → NarrowBandCell) × List (List ℤ))
  | [], st => st
  | p :: rest, st =>
    innerBandsGo n bands rest (innerBandGo n (bands.getD p.1 []) st)

/-- Per-component body of the source's `InitialSignedNarrowBands` loop:
error when the component has a single dilation band, otherwise process
the largest-bounding-box band into the outside list and all other bands
into the inside list. State: (label grid, inside list, outside list). -/
def signedComponentStep (sz : List ℕ)
    (st : (List ℤ → NarrowBandCell) × List (List ℤ) × List (List ℤ))
    (component : List (List ℤ)) :
    Except Err
      ((List ℤ → NarrowBandCell) × List (List ℤ) × List (List ℤ)) :=
  let bands := DilationBands component sz
  if bands.length = 1 then .error .openComponent
  else
    let sorted := bandAreasSorted bands sz.length
    let outer := bands.getD (sorted.getD 0 (0, 0)).1 []
    let r1 := outerBandGo sz.length outer (st.1, st.2.2)
    let r2 := innerBandsGo sz.length bands (sorted.drop 1) (r1.1, st.2.1)
    .ok (r2.1, r2.2, r1.2)

/-- The component loop of `InitialSignedNarrowBands`. -/
def signedComponentsGo (sz : List ℕ) :
    List (List (List ℤ)) →
    ((List ℤ → NarrowBandCell) × List (List ℤ) × List (List ℤ)) →
    Except Err
      ((List ℤ → NarrowBandCell) × List (List ℤ) × List (List ℤ))
  | [], st => .ok st
  | comp :: rest, st =>
    match signedComponentStep sz st comp with
    | .error e => .error e
    | .ok st' => signedComponentsGo sz rest st'

/-- The source's `InitialSignedNarrowBands`: vertex-connected seed
components, then per component the dilation-band classification,
producing the (inside, outside) narrow-band seed lists. -/
def InitialSignedNarrowBands (frozenIndices : List (List ℤ))
    (sz : List ℕ) : Except Err (List (List ℤ) × List (List ℤ)) := do
  let comps := ConnectedComponents frozenIndices sz
    (VertexNeighborOffsets sz.length)
  let lab0 : List ℤ → NarrowBandCell :=
    fun x => if x ∈ frozenIndices then .frozenCell else .background
  let st ← signedComponentsGo sz comps (lab0, [], [])
  return (st.2.1, st.2.2)

/-- Modelled from the spec: the validation helpers called by
`SignedDistance` (`ThrowIfSizeNotEqual`, `ThrowIfEmptyIndices`,
`ThrowIfIndexOutsideGrid`, `ThrowIfDuplicateIndices`,
`ThrowIfWholeGridFrozen`, `ThrowIfInvalidDistance`) are declared nowhere
in the repository; each is modelled as the precondition its name and the
spec's §7 error taxonomy describe, in the source's call order. The
distance predicate `!isnan` is vacuous over exact scalars. -/
def SignedDistanceValidate {K : Type} [LinearOrderedField K]
    (sz : List ℕ) (dx : List K) (speed : K)
    (frozenIndices : List (List ℤ)) (frozenDistances : List K) :
    Except Err Unit :=
  if sz.any (· == 0) then .error .invalidGridSize
  else if dx.any (fun h => decide (h ≤ 0)) then .error .invalidGridSpacing
  else if speed ≤ 0 then .error .invalidSpeed
  else if frozenIndices.length ≠ frozenDistances.length then
    .error .sizeMismatch
  else if frozenIndices.isEmpty then .error .emptyIndices
  else if frozenIndices.any (fun i => !Inside i sz) then
    .error .indexOutsideGrid
  else if ¬ frozenIndices.Nodup then .error .duplicateIndex
  else if frozenIndices.length = LinearSize sz then .error .wholeGridFrozen
  else .ok ()

/-- Modelled from the spec: `InitializeNarrowBand` is called by
`SignedDistance` but defined nowhere in the repository; per the spec's
§2 data flow and §4.8 it seeds the narrow band with one entry per given
index, each computed by a solver call against the current grid. -/
def InitializeNarrowBand {K : Type} [LinearOrderedField K]
    (solve : List ℤ → Except Err K) (indices : List (List ℤ)) :
    Except Err (List (K × List ℤ)) :=
  indices.mapM (fun c => (solve c).map (fun u => (u, c)))

/-- The sign-flip step of `SignedDistance`: negate every frozen cell,
leave sentinel cells unchanged. -/
def negateFrozen {K : Type} [LinearOrderedField K]
    (g : List ℤ → Option K) : List ℤ → Option K :=
  fun x => (g x).map (fun d => -d)

/-- The source's `SignedDistance` driver. The source of this function
does not compile as written (the `EikonalSolver<T,N>` type, the
`ThrowIf*` helpers and `InitializeNarrowBand` are undefined, and the two
`InitializeNarrowBand` calls lack a comma between `&distance_grid` and
`&narrow_band`); the missing pieces are modelled from the spec:
`EikonalSolver` as the first-order uniform-speed solver (§4.3/§6), and
the predicate missing from the `SetBoundaryCondition` call as the spec's
signed-seed predicate `!isnan` (vacuous over exact scalars). -/
def SignedDistance {K : Type} [LinearOrderedField K] (sq : K → K)
    (sz : List ℕ) (dx : List K) (speed : K)
    (frozenIndices : List (List ℤ)) (frozenDistances : List K) :
    Except Err (List ℤ → Option K) :=
  match SignedDistanceValidate sz dx speed frozenIndices
      frozenDistances with
  | .error e => .error e
  | .ok _ =>
    match SetBoundaryCondition frozenIndices frozenDistances (-1)
      (fun _ => true) sz (fun _ => (none : Option K)) with
    | .error e => .error e
    | .ok g =>
      match InitialSignedNarrowBands frozenIndices sz with
      | .error e => .error e
      | .ok r =>
        let solver := fun c (gr : List ℤ → Option K) =>
          SolveEikonal sq c gr speed dx sz
        match InitializeNarrowBand (fun c => solver c g) r.1 with
        | .error e => .error e
        | .ok band1 =>
          match (MarchNarrowBand solver sz band1 g).1 with
          | .error e => .error e
          | .ok g1 =>
            let g2 := negateFrozen g1
            match InitializeNarrowBand (fun c => solver c g2) r.2 with
            | .error e => .error e
            | .ok band2 => (MarchNarrowBand solver sz band2 g2).1

/-- Claim-side formulation (C7): for each vertex-connected seed
component, the cells of its largest-bounding-box dilation band that have
at least one face neighbor which is a seed. -/
def ClaimOutsideSeeds (frozenIndices : List (List ℤ)) (sz : List ℕ) :
    List (List ℤ) :=
  (ConnectedComponents frozenIndices sz
    (VertexNeighborOffsets sz.length)).flatMap
    (fun component =>
      let bands := DilationBands component sz
      let sorted := bandAreasSorted bands sz.length
      let outer := bands.getD (sorted.getD 0 (0, 0)).1 []
      outer.filter (hasSeedFaceNeighbor frozenIndices sz.length))

end Signed

section ConcreteData

/-- Extract the error of an `Except` (the payloads of the grids are
function-valued, so whole-`Except` equality is not decidable). -/
def errOf {ε α : Type} : Except ε α → Option ε
  | .error e => some e
  | .ok _ => none

/-- Structurally computing exact natural square root (kernel-reducible,
unlike the well-founded `Nat.sqrt`); only ever applied to perfect
squares in this file. -/
def natSqrtE (n : ℕ) : ℕ :=
  ((List.range (n + 1)).filter (fun k => k * k ≤ n)).foldl max 0

/-- Exact rational square root: models `std::sqrt` exactly on the
rationals whose numerator and denominator are perfect squares; every
concrete run below only takes square roots of such values (where the
`double` computation is also exact). -/
def ratSqrt (x : ℚ) : ℚ := (natSqrtE x.num.toNat : ℚ) / (natSqrtE x.den : ℚ)

/-- C1 witness grid: a single frozen seed of distance 0 at `[0]`. -/
noncomputable def w1Grid : List ℤ → Option ℝ := fun i => if i = [0] then some 0 else none

/-- C2 failing input: on the 1-D grid of extent 5, focal cell `[2]`,
the −1 direction has one-step value 5 and two-step value 4, while the
+1 direction has one-step value 3 and an unfrozen two-step cell. -/
noncomputable def c2Grid : List ℤ → Option ℝ := fun i =>
  if i = [0] then some 4
  else if i = [1] then some 5
  else if i = [3] then some 3 else none

/-- C3 counterexample grid: a frozen cell of value −2 at `[0]`. -/
noncomputable def c3Grid : List ℤ → Option ℝ := fun i => if i = [0] then some (-2) else none

/-- C3 counterexample solver: the first-order solver on the 1-D grid of
extent 3 with unit speed and spacing. -/
noncomputable def c3Solver : List ℤ → (List ℤ → Option ℝ) → Except Err ℝ :=
  fun c g => SolveEikonal Real.sqrt c g 1 [1] [3]

/-- Solver for the 1-cell-grid runs over ℚ (never actually invoked on
any cell in those runs, which makes them kernel-decidable). -/
def q1Solver : List ℤ → (List ℤ → Option ℚ) → Except Err ℚ :=
  fun c g => SolveEikonal ratSqrt c g 1 [1] [1]

/-- C5 witness grid over ℚ: cell `[0]` frozen at 1. -/
def w5Grid : List ℤ → Option ℚ := fun i => if i = [0] then some 1 else none

/-- Constant solver over ℚ (the solver type is a template parameter of
the source's drivers); keeps a concrete driver run free of rational
arithmetic. -/
def q7Solver : List ℤ → (List ℤ → Option ℚ) → Except Err ℚ :=
  fun _ _ => .ok 7

/-- C7 counterexample seeds: a ring of eight cells around `(2,2)` in the
5×5 grid (one vertex-connected component with an inner and an outer
dilation band). -/
def ringSeeds : List (List ℤ) :=
  [[1, 1], [1, 2], [1, 3], [2, 1], [2, 3], [3, 1], [3, 2], [3, 3]]

end ConcreteData

/-! ## Theorems -/

section IndexTheorems

theorem Inside_length {idx : List ℤ} {sz : List ℕ}
    (h : Inside idx sz = true) : idx.length = sz.length := by
  induction idx generalizing sz with
  | nil => cases sz with
    | nil => rfl
    | cons s ss => simp [Inside] at h
  | cons x xs ih =>
    cases sz with
    | nil => simp [Inside] at h
    | cons s ss =>
      simp only [Inside, Bool.and_eq_true] at h
      simp [ih h.2]

theorem GridStrides_nil : GridStrides [] = [] := rfl

theorem GridStrides_single (s : ℕ) : GridStrides [s] = [] := rfl

theorem GridStrides_cons (s r : ℕ) (rs : List ℕ) :
    GridStrides (s :: r :: rs) =
      s :: (GridStrides (r :: rs)).map (fun b => s * b) := by
  unfold GridStrides
  simp only [List.length_cons, Nat.add_sub_cancel, List.range_succ_eq_map,
    List.map_cons, List.map_map]
  simp [Function.comp, List.take_succ_cons, List.prod_cons]

theorem zipWith_dot_scale (s : ℕ) (ys : List ℤ) (St : List ℕ) :
    (List.zipWith (fun (a : ℤ) (b : ℕ) => a * (b : ℤ)) ys
      (St.map (fun b => s * b))).sum =
    (s : ℤ) * (List.zipWith (fun (a : ℤ) (b : ℕ) => a * (b : ℤ)) ys St).sum := by
  induction ys generalizing St with
  | nil => simp
  | cons y ys ih =>
    cases St with
    | nil => simp
    | cons t ts =>
      simp only [List.map_cons, List.zipWith_cons_cons, List.sum_cons, ih]
      push_cast
      ring

theorem GridLinearIndex_horner :
    ∀ (sz : List ℕ) (idx : List ℤ), idx.length = sz.length →
      GridLinearIndex idx (GridStrides sz) = hornerIdx idx sz := by
  intro sz
  induction sz with
  | nil =>
    intro idx h
    cases idx with
    | nil => rfl
    | cons x xs => simp at h
  | cons s ss ih =>
    intro idx h
    cases idx with
    | nil => simp at h
    | cons x xs =>
      simp only [List.length_cons, Nat.succ.injEq] at h
      cases ss with
      | nil =>
        cases xs with
        | nil => simp [GridLinearIndex, GridStrides_single, hornerIdx]
        | cons y ys => simp at h
      | cons r rs =>
        cases xs with
        | nil => simp at h
        | cons y ys =>
          rw [GridStrides_cons]
          have ihy := ih (y :: ys) h
          simp only [GridLinearIndex, List.headD_cons, List.tail_cons,
            List.zipWith_cons_cons, List.sum_cons, hornerIdx] at ihy ⊢
          rw [zipWith_dot_scale]
          have hsum :
              (List.zipWith (fun (a : ℤ) (b : ℕ) => a * (b : ℤ)) ys
                (GridStrides (r :: rs))).sum = (r : ℤ) * hornerIdx ys rs := by
            linarith [ihy]
          rw [hsum]
          ring

theorem hornerIdx_bounds :
    ∀ (sz : List ℕ) (idx : List ℤ), Inside idx sz = true →
      0 ≤ hornerIdx idx sz ∧ hornerIdx idx sz < (LinearSize sz : ℤ) := by
  intro sz
  induction sz with
  | nil =>
    intro idx h
    cases idx with
    | nil => simp [hornerIdx, LinearSize]
    | cons x xs => simp [Inside] at h
  | cons s ss ih =>
    intro idx h
    cases idx with
    | nil => simp [Inside] at h
    | cons x xs =>
      simp only [Inside, Bool.and_eq_true, decide_eq_true_eq] at h
      obtain ⟨⟨hx0, hxs⟩, hins⟩ := h
      obtain ⟨hl, hu⟩ := ih xs hins
      have hs : (0 : ℤ) < s := lt_of_le_of_lt hx0 hxs
      simp only [hornerIdx, LinearSize, List.prod_cons]
      constructor
      · positivity
      · have h1 : hornerIdx xs ss + 1 ≤ (ss.prod : ℤ) := hu
        have h2 : (s : ℤ) * (hornerIdx xs ss + 1) ≤ (s : ℤ) * (ss.prod : ℤ) :=
          mul_le_mul_of_nonneg_left h1 (le_of_lt hs)
        have h3 : (s : ℤ) * (hornerIdx xs ss + 1) =
            (s : ℤ) * hornerIdx xs ss + s := by ring
        have hcast : ((s * ss.prod : ℕ) : ℤ) = (s : ℤ) * (ss.prod : ℤ) := by
          push_cast
          ring
        rw [hcast]
        linarith

theorem hornerIdx_inj :
    ∀ (sz : List ℕ) (idx1 idx2 : List ℤ), Inside idx1 sz = true →
      Inside idx2 sz = true → hornerIdx idx1 sz = hornerIdx idx2 sz →
      idx1 = idx2 := by
  intro sz
  induction sz with
  | nil =>
    intro idx1 idx2 h1 h2 _
    cases idx1 with
    | nil =>
      cases idx2 with
      | nil => rfl
      | cons y ys => simp [Inside] at h2
    | cons x xs => simp [Inside] at h1
  | cons s ss ih =>
    intro idx1 idx2 h1 h2 heq
    cases idx1 with
    | nil => simp [Inside] at h1
    | cons x xs =>
      cases idx2 with
      | nil => simp [Inside] at h2
      | cons y ys =>
        simp only [Inside, Bool.and_eq_true, decide_eq_true_eq] at h1 h2
        obtain ⟨⟨hx0, hxs⟩, hins1⟩ := h1
        obtain ⟨⟨hy0, hys⟩, hins2⟩ := h2
        simp only [hornerIdx] at heq
        obtain ⟨hb1l, hb1u⟩ := hornerIdx_bounds ss xs hins1
        obtain ⟨hb2l, hb2u⟩ := hornerIdx_bounds ss ys hins2
        have hsub : hornerIdx xs ss = hornerIdx ys ss := by
          rcases lt_trichotomy (hornerIdx xs ss) (hornerIdx ys ss) with hlt | he | hgt
          · exfalso
            have : (s : ℤ) * (hornerIdx xs ss + 1) ≤ (s : ℤ) * hornerIdx ys ss :=
              mul_le_mul_of_nonneg_left hlt (by positivity)
            nlinarith
          · exact he
          · exfalso
            have : (s : ℤ) * (hornerIdx ys ss + 1) ≤ (s : ℤ) * hornerIdx xs ss :=
              mul_le_mul_of_nonneg_left hgt (by positivity)
            nlinarith
        have hx : x = y := by rw [hsub] at heq; linarith
        rw [hx, ih xs ys hins1 hins2 hsub]

/-- C10: with the strides computed by `GridStrides`, `GridLinearIndex`
maps every index inside the grid to a nonnegative offset strictly below
`LinearSize`, and distinct in-bounds indices to distinct offsets, so
in-bounds cell accesses stay inside the buffer and never alias. -/
theorem C10_gridLinearIndex_safe (sz : List ℕ) (idx1 idx2 : List ℤ)
    (hpos : ∀ s ∈ sz, 0 < s)
    (h1 : Inside idx1 sz = true) (h2 : Inside idx2 sz = true) :
    (0 ≤ GridLinearIndex idx1 (GridStrides sz) ∧
      GridLinearIndex idx1 (GridStrides sz) < (LinearSize sz : ℤ)) ∧
    (GridLinearIndex idx1 (GridStrides sz) =
        GridLinearIndex idx2 (GridStrides sz) → idx1 = idx2) := by
  have e1 := GridLinearIndex_horner sz idx1 (Inside_length h1)
  have e2 := GridLinearIndex_horner sz idx2 (Inside_length h2)
  refine ⟨?_, ?_⟩
  · rw [e1]
    exact hornerIdx_bounds sz idx1 h1
  · intro he
    rw [e1, e2] at he
    exact hornerIdx_inj sz idx1 idx2 h1 h2 he

/-- C10 witness: the linear-index safety theorem applied to the concrete
grid `4 × 3 × 2` at the indices `[1,2,1]` and `[2,1,1]`. -/
theorem C10_gridLinearIndex_safe_witness :
    (0 ≤ GridLinearIndex [1, 2, 1] (GridStrides [4, 3, 2]) ∧
      GridLinearIndex [1, 2, 1] (GridStrides [4, 3, 2]) <
        (LinearSize [4, 3, 2] : ℤ)) ∧
    (GridLinearIndex [1, 2, 1] (GridStrides [4, 3, 2]) =
        GridLinearIndex [2, 1, 1] (GridStrides [4, 3, 2]) →
      ([1, 2, 1] : List ℤ) = [2, 1, 1]) :=
  C10_gridLinearIndex_safe [4, 3, 2] [1, 2, 1] [2, 1, 1]
    (by decide) (by decide) (by decide)

end IndexTheorems

section SolverTheorems

variable {K : Type} [LinearOrderedField K]

theorem axisMinFold_eq_claim (g : List ℤ → Option K) (sz : List ℕ)
    (x : List ℤ) (i : ℕ) : axisMinFold g sz x i = ClaimAxisMin g sz x i := by
  unfold axisMinFold ClaimAxisMin readFrozen
  simp only [List.foldl_cons, List.foldl_nil]
  by_cases h1 : Inside (modifyIdx x i (-1)) sz
  · by_cases h2 : Inside (modifyIdx x i 1) sz
    · simp only [h1, h2, if_true]
      cases hg1 : g (modifyIdx x i (-1)) with
      | none => cases hg2 : g (modifyIdx x i 1) <;> simp [stepMin]
      | some a =>
        cases hg2 : g (modifyIdx x i 1) with
        | none => simp [stepMin]
        | some b =>
          simp only [stepMin]
          rcases lt_or_le b a with h | h
          · simp [h, min_eq_right h.le]
          · simp [not_lt.mpr h, min_eq_left h]
    · simp only [h1, h2, if_true, if_false]
      cases hg1 : g (modifyIdx x i (-1)) <;> simp [stepMin]
  · by_cases h2 : Inside (modifyIdx x i 1) sz
    · simp only [h1, h2, if_true, if_false]
      cases hg2 : g (modifyIdx x i 1) <;> simp [stepMin]
    · simp [h1, h2]

theorem SolveEikonal_eq_claimQuadratic (sq : K → K) (x : List ℤ)
    (g : List ℤ → Option K) (speed : K) (spacing : List K) (sz : List ℕ) :
    SolveEikonal sq x g speed spacing sz =
      SolveEikonalQuadratic sq (ClaimCoeffs g sz x speed spacing) := by
  simp only [SolveEikonal, ClaimCoeffs]
  congr 1
  apply List.foldl_ext
  intro q i _
  rw [axisMinFold_eq_claim]
  cases ClaimAxisMin g sz x i with
  | none => rfl
  | some m =>
    simp only [foTerm, InverseSquared, Squared, Prod.mk.injEq]
    refine ⟨by ring, by ring, by ring⟩

theorem SolveEikonalQuadratic_ok (sq : K → K) (q : K × K × K) (u : K)
    (h : SolveEikonalQuadratic sq q = .ok u) :
    0 ≤ q.2.1 * q.2.1 - 4 * q.2.2 * q.1 ∧
      u = (-q.2.1 + sq (q.2.1 * q.2.1 - 4 * q.2.2 * q.1)) / (2 * q.2.2) := by
  simp only [SolveEikonalQuadratic] at h
  by_cases h1 : q.2.1 * q.2.1 - 4 * q.2.2 * q.1 < 0
  · rw [if_pos h1] at h
    exact absurd h (by simp)
  · rw [if_neg h1] at h
    by_cases h2 :
        (-q.2.1 + sq (q.2.1 * q.2.1 - 4 * q.2.2 * q.1)) / (2 * q.2.2) < 0
    · rw [if_pos h2] at h
      exact absurd h (by simp)
    · rw [if_neg h2] at h
      exact ⟨not_lt.mp h1, (Except.ok.inj h).symm⟩

theorem quadratic_larger_root (a0 a1 a2 : ℝ) (ha2 : 0 < a2)
    (hd : 0 ≤ a1 * a1 - 4 * a2 * a0) (u : ℝ)
    (hu : u = (-a1 + Real.sqrt (a1 * a1 - 4 * a2 * a0)) / (2 * a2)) :
    a2 * u ^ 2 + a1 * u + a0 = 0 ∧
      ∀ v : ℝ, a2 * v ^ 2 + a1 * v + a0 = 0 → v ≤ u := by
  set s := Real.sqrt (a1 * a1 - 4 * a2 * a0) with hsdef
  have hs : s ^ 2 = a1 * a1 - 4 * a2 * a0 := Real.sq_sqrt hd
  have hsnn : 0 ≤ s := Real.sqrt_nonneg _
  have ha2' : (2 : ℝ) * a2 ≠ 0 := by positivity
  constructor
  · rw [hu]
    field_simp
    ring_nf
    nlinarith [hs]
  · intro v hv
    have hX : (2 * a2 * v + a1 - s) * (2 * a2 * v + a1 + s) = 0 := by
      linear_combination 4 * a2 * hv - hs
    have h2 : 2 * a2 * v ≤ -a1 + s := by
      rcases mul_eq_zero.mp hX with h | h
      · nlinarith
      · nlinarith
    rw [hu, le_div_iff (by positivity : (0 : ℝ) < 2 * a2)]
    linarith

theorem claimFold_a2_mono (g : List ℤ → Option K) (sz : List ℕ)
    (x : List ℤ) (spacing : List K) (l : List ℕ) (q : K × K × K) :
    q.2.2 ≤ (l.foldl
      (fun q i =>
        match ClaimAxisMin g sz x i with
        | none => q
        | some m => foTerm q m (spacing.getD i 1)) q).2.2 := by
  induction l generalizing q with
  | nil => exact le_refl q.2.2
  | cons j t ih =>
    simp only [List.foldl_cons]
    refine le_trans ?_ (ih _)
    cases hc : ClaimAxisMin g sz x j with
    | none => simp [hc]
    | some m =>
      simp only [hc, foTerm]
      exact le_add_of_nonneg_right (div_nonneg one_pos.le (mul_self_nonneg _))

theorem claimFold_a2_pos (g : List ℤ → Option K) (sz : List ℕ)
    (x : List ℤ) (spacing : List K) (l : List ℕ) (q : K × K × K)
    (hq : 0 ≤ q.2.2)
    (hex : ∃ i ∈ l, (ClaimAxisMin g sz x i).isSome = true ∧
      0 < spacing.getD i 1) :
    0 < (l.foldl
      (fun q i =>
        match ClaimAxisMin g sz x i with
        | none => q
        | some m => foTerm q m (spacing.getD i 1)) q).2.2 := by
  induction l generalizing q with
  | nil => exact absurd hex (by simp)
  | cons j t ih =>
    rcases hex with ⟨i, hi, hsome, hpos⟩
    rcases List.mem_cons.mp hi with rfl | hit
    · simp only [List.foldl_cons]
      cases hc : ClaimAxisMin g sz x i with
      | none => rw [hc] at hsome; simp at hsome
      | some m =>
        refine lt_of_lt_of_le ?_ (claimFold_a2_mono g sz x spacing t _)
        simp only [hc, foTerm]
        have hpos2 : (0 : K) < 1 / Squared (spacing.getD i 1) := by
          rw [Squared]
          exact div_pos one_pos (mul_pos hpos hpos)
        linarith
    · simp only [List.foldl_cons]
      cases hc : ClaimAxisMin g sz x j with
      | none => simp only [hc]; exact ih q hq ⟨i, hit, hsome, hpos⟩
      | some m =>
        simp only [hc]
        refine ih _ ?_ ⟨i, hit, hsome, hpos⟩
        simp only [foTerm]
        have hnn : (0 : K) ≤ 1 / Squared (spacing.getD j 1) :=
          div_nonneg one_pos.le (mul_self_nonneg _)
        linarith

theorem ClaimCoeffs_a2_pos (g : List ℤ → Option K) (sz : List ℕ)
    (x : List ℤ) (speed : K) (spacing : List K)
    (hsp : ∀ i, i < sz.length → 0 < spacing.getD i 1)
    (hax : ∃ i, i < sz.length ∧ (ClaimAxisMin g sz x i).isSome = true) :
    0 < (ClaimCoeffs g sz x speed spacing).2.2 := by
  unfold ClaimCoeffs
  rcases hax with ⟨i, hlt, hsome⟩
  exact claimFold_a2_pos g sz x spacing _ _ (le_refl 0)
    ⟨i, List.mem_range.mpr hlt, hsome, hsp i hlt⟩

/-- C1: for an in-bounds focal index, positive speed and positive
spacings (and at least one axis with a frozen face neighbor, so that the
update is a genuine quadratic), the first-order `SolveEikonal` equals
`SolveEikonalQuadratic` applied to exactly the coefficients the claim
describes (start `(−1/s², 0, 0)`; each axis with a frozen face neighbor
of minimum value `m_i` adds `m_i²/h_i²`, `−2m_i/h_i²`, `1/h_i²`; other
axes contribute nothing), and any value it returns is the larger root of
that quadratic. -/
theorem C1_solveEikonal_coefficients_largest_root (g : List ℤ → Option ℝ)
    (sz : List ℕ) (x : List ℤ) (speed : ℝ) (spacing : List ℝ)
    (hin : Inside x sz = true) (hs : 0 < speed)
    (hsp : ∀ i, i < sz.length → 0 < spacing.getD i 1)
    (hax : ∃ i, i < sz.length ∧ (ClaimAxisMin g sz x i).isSome = true) :
    SolveEikonal Real.sqrt x g speed spacing sz =
      SolveEikonalQuadratic Real.sqrt (ClaimCoeffs g sz x speed spacing) ∧
    ∀ u : ℝ, SolveEikonal Real.sqrt x g speed spacing sz = .ok u →
      ((ClaimCoeffs g sz x speed spacing).2.2 * u ^ 2 +
          (ClaimCoeffs g sz x speed spacing).2.1 * u +
          (ClaimCoeffs g sz x speed spacing).1 = 0 ∧
        ∀ v : ℝ,
          (ClaimCoeffs g sz x speed spacing).2.2 * v ^ 2 +
              (ClaimCoeffs g sz x speed spacing).2.1 * v +
              (ClaimCoeffs g sz x speed spacing).1 = 0 → v ≤ u) := by
  have heq := SolveEikonal_eq_claimQuadratic Real.sqrt x g speed spacing sz
  refine ⟨heq, ?_⟩
  intro u hok
  rw [heq] at hok
  obtain ⟨hd, hu⟩ := SolveEikonalQuadratic_ok Real.sqrt _ u hok
  have ha2 := ClaimCoeffs_a2_pos g sz x speed spacing hsp hax
  exact quadratic_larger_root _ _ _ ha2 hd u hu

/-- C1 witness: the solver claim applied to the 1-D grid of extent 3
with a single seed of distance 0 at `[0]`, focal cell `[1]`, unit speed
and spacing. -/
theorem C1_solveEikonal_coefficients_largest_root_witness :
    SolveEikonal Real.sqrt [1] w1Grid 1 [1] [3] =
      SolveEikonalQuadratic Real.sqrt (ClaimCoeffs w1Grid [3] [1] 1 [1]) ∧
    ∀ u : ℝ, SolveEikonal Real.sqrt [1] w1Grid 1 [1] [3] = .ok u →
      ((ClaimCoeffs w1Grid [3] [1] 1 [1]).2.2 * u ^ 2 +
          (ClaimCoeffs w1Grid [3] [1] 1 [1]).2.1 * u +
          (ClaimCoeffs w1Grid [3] [1] 1 [1]).1 = 0 ∧
        ∀ v : ℝ,
          (ClaimCoeffs w1Grid [3] [1] 1 [1]).2.2 * v ^ 2 +
              (ClaimCoeffs w1Grid [3] [1] 1 [1]).2.1 * v +
              (ClaimCoeffs w1Grid [3] [1] 1 [1]).1 = 0 → v ≤ u) :=
  C1_solveEikonal_coefficients_largest_root w1Grid [3] [1] 1 [1]
    (by decide) one_pos
    (by
      intro i _
      rcases i with _ | n
      · norm_num [List.getD]
      · norm_num [List.getD])
    ⟨0, by decide, rfl⟩

end SolverTheorems

section HighOrderTheorems

theorem sqrt_nine : Real.sqrt 9 = 3 := by
  rw [show (9 : ℝ) = 3 ^ 2 by norm_num]
  exact Real.sqrt_sq (by norm_num)

theorem sqrt_four : Real.sqrt 4 = 2 := by
  rw [show (4 : ℝ) = 2 ^ 2 by norm_num]
  exact Real.sqrt_sq (by norm_num)

theorem c2_haAxisFold :
    haAxisFold c2Grid [5] [2] 0 = (some (3 : ℝ), some 4) := by
  unfold haAxisFold haTwoStep
  simp only [List.foldl_cons, List.foldl_nil]
  norm_num [c2Grid, Inside, modifyIdx]

theorem c2_codeValue :
    HighAccuracySolveEikonal Real.sqrt [2] c2Grid 1 [1] [5] =
      .ok (10 / 3) := by
  unfold HighAccuracySolveEikonal
  simp only [List.length_cons, List.length_nil, List.range_succ,
    List.range_zero, List.nil_append, List.foldl_cons, List.foldl_nil,
    c2_haAxisFold]
  rw [show (-1 / Squared (1 : ℝ) +
        Squared ((1 / 3) * (4 * 3 - 4)) *
          (9 / (4 * Squared ([(1 : ℝ)].getD 0 1))),
      (0 : ℝ) + -2 * ((1 / 3) * (4 * 3 - 4)) *
        (9 / (4 * Squared ([(1 : ℝ)].getD 0 1))),
      (0 : ℝ) + 9 / (4 * Squared ([(1 : ℝ)].getD 0 1))) =
      ((15 : ℝ), -12, 9 / 4) from by norm_num [Squared, List.getD]]
  simp only [SolveEikonalQuadratic]
  norm_num [sqrt_nine]

theorem c2_claimAxisMin :
    ClaimHighAxisMin c2Grid [5] [2] 0 = some ((3 : ℝ), 1) := by
  unfold ClaimHighAxisMin readFrozen
  norm_num [c2Grid, Inside, modifyIdx]

theorem c2_claimValue :
    ClaimHighSolve Real.sqrt [2] c2Grid 1 [1] [5] = .ok 4 := by
  unfold ClaimHighSolve ClaimHighCoeffs
  simp only [List.length_cons, List.length_nil, List.range_succ,
    List.range_zero, List.nil_append, List.foldl_cons, List.foldl_nil,
    c2_claimAxisMin]
  rw [show readFrozen c2Grid [5] (modifyIdx [2] 0 (2 * 1)) =
      (none : Option ℝ) from by
    norm_num [readFrozen, c2Grid, Inside, modifyIdx]]
  rw [show foTerm ((-1 / Squared (1 : ℝ)), 0, 0) 3 ([(1 : ℝ)].getD 0 1) =
      ((8 : ℝ), -6, 1) from by norm_num [foTerm, Squared, List.getD]]
  simp only [SolveEikonalQuadratic]
  norm_num [sqrt_four]

/-- C2 (code bug, failing input): on the 1-D grid of extent 5 with unit
speed and spacing, focal cell `[2]`, values 5 at `[1]`, 4 at `[0]`, 3 at
`[3]` and `[4]` unfrozen, the source's high-order solver keeps the stale
two-step value 4 adopted while scanning the −1 direction after the +1
direction lowers the one-step minimum to 3 (whose own two-step neighbor
is unfrozen), so it applies the second-order update with `m₂ = 4 > m₁ =
3` and returns 10/3 — while the claim's same-direction monotone-upwind
rule (`m₂ ≤ m₁`, two steps along the minimum's direction) requires the
first-order fallback on this axis and yields 4. -/
theorem C2_highOrder_stale_two_step :
    HighAccuracySolveEikonal Real.sqrt [2] c2Grid 1 [1] [5] =
      .ok (10 / 3) ∧
    ClaimHighSolve Real.sqrt [2] c2Grid 1 [1] [5] = .ok 4 ∧
    HighAccuracySolveEikonal Real.sqrt [2] c2Grid 1 [1] [5] ≠
      ClaimHighSolve Real.sqrt [2] c2Grid 1 [1] [5] := by
  refine ⟨c2_codeValue, c2_claimValue, ?_⟩
  rw [c2_codeValue, c2_claimValue]
  intro h
  have : (10 / 3 : ℝ) = 4 := Except.ok.inj h
  norm_num at this

end HighOrderTheorems

section BandLemmas

variable {K : Type} [LinearOrderedField K]

theorem mem_allIndices : ∀ (sz : List ℕ) (x : List ℤ),
    x ∈ allIndices sz ↔ Inside x sz = true := by
  intro sz
  induction sz with
  | nil =>
    intro x
    cases x with
    | nil => simp [allIndices, Inside]
    | cons a xs => simp [allIndices, Inside]
  | cons s ss ih =>
    intro x
    cases x with
    | nil =>
      simp only [allIndices, List.mem_flatMap, List.mem_map, List.mem_range]
      constructor
      · rintro ⟨v, _, y, _, h⟩
        cases h
      · intro h
        simp [Inside] at h
    | cons a xs =>
      simp only [allIndices, List.mem_flatMap, List.mem_map, List.mem_range,
        Inside, Bool.and_eq_true, decide_eq_true_eq, ih]
      constructor
      · rintro ⟨v, hv, y, hy, heq⟩
        obtain ⟨rfl, rfl⟩ : (v : ℤ) = a ∧ y = xs := by
          injection heq with h1 h2
          exact ⟨h1, h2⟩
        exact ⟨⟨by positivity, by exact_mod_cast hv⟩, hy⟩
      · rintro ⟨⟨ha0, has⟩, hxs⟩
        refine ⟨a.toNat, ?_, xs, hxs, ?_⟩
        · omega
        · rw [Int.toNat_of_nonneg ha0]

theorem nodup_allIndices : ∀ (sz : List ℕ), (allIndices sz).Nodup := by
  intro sz
  induction sz with
  | nil => simp [allIndices]
  | cons s ss ih =>
    simp only [allIndices]
    rw [List.nodup_flatMap]
    refine ⟨fun v _ => ih.map (fun a b h => by injection h), ?_⟩
    refine (List.nodup_range s).imp ?_
    intro a b hab z hza hzb
    simp only [List.mem_map] at hza hzb
    obtain ⟨y1, _, rfl⟩ := hza
    obtain ⟨y2, _, heq⟩ := hzb
    injection heq with h1 _
    exact hab (by exact_mod_cast h1.symm)

theorem countP_update {g : List ℤ → Option K} {x : List ℤ} {d : K} :
    ∀ (l : List (List ℤ)), l.Nodup → x ∈ l → g x = none →
      l.countP (fun c => !(gUpdate g x (some d) c).isSome) + 1 =
        l.countP (fun c => !(g c).isSome) := by
  intro l
  induction l with
  | nil => intro _ hx; simp at hx
  | cons h t ih =>
    intro hnd hx hgx
    rcases List.mem_cons.mp hx with rfl | hxt
    · have hnot : x ∉ t := (List.nodup_cons.mp hnd).1
      have hsame : t.countP (fun c => !(gUpdate g x (some d) c).isSome) =
          t.countP (fun c => !(g c).isSome) := by
        apply List.countP_congr
        intro c hc
        have : c ≠ x := fun hcx => hnot (hcx ▸ hc)
        simp [gUpdate, this]
      simp only [List.countP_cons]
      rw [hsame]
      simp [gUpdate, hgx]
    · have hne : h ≠ x := by
        rintro rfl
        exact (List.nodup_cons.mp hnd).1 hxt
      have ihh := ih (List.nodup_cons.mp hnd).2 hxt hgx
      simp only [List.countP_cons]
      rw [show (gUpdate g x (some d) h) = g h by simp [gUpdate, hne]]
      omega

theorem unfrozenCount_update {sz : List ℕ} {g : List ℤ → Option K}
    {x : List ℤ} {d : K} (hin : Inside x sz = true) (hx : g x = none) :
    unfrozenCount sz (gUpdate g x (some d)) + 1 = unfrozenCount sz g :=
  countP_update (allIndices sz) (nodup_allIndices sz)
    ((mem_allIndices sz x).mpr hin) hx

theorem pickMin_mem : ∀ (l : List (K × List ℤ)) (e : K × List ℤ),
    pickMin e l ∈ e :: l := by
  intro l
  induction l with
  | nil => intro e; simp [pickMin]
  | cons c t ih =>
    intro e
    have hstep : pickMin e (c :: t) =
        pickMin (if entryLtb c e then c else e) t := rfl
    rw [hstep]
    by_cases hce : entryLtb c e = true
    · rw [if_pos hce]
      rcases List.mem_cons.mp (ih c) with h | h
      · simp [h]
      · simp [h]
    · rw [if_neg hce]
      rcases List.mem_cons.mp (ih e) with h | h
      · simp [h]
      · simp [h]

theorem minEntry_single (e : K × List ℤ) : minEntry [e] = some (e, []) := by
  simp [minEntry, pickMin, List.erase_cons_head]

theorem minEntry_mem {band : List (K × List ℤ)} {m : K × List ℤ}
    {rest : List (K × List ℤ)} (h : minEntry band = some (m, rest)) :
    m ∈ band ∧ rest = band.erase m := by
  cases band with
  | nil => simp [minEntry] at h
  | cons e l =>
    simp only [minEntry, Option.some.injEq, Prod.mk.injEq] at h
    obtain ⟨rfl, rfl⟩ := h
    exact ⟨pickMin_mem l e, rfl⟩

theorem minEntry_rest_length {band : List (K × List ℤ)} {m : K × List ℤ}
    {rest : List (K × List ℤ)} (h : minEntry band = some (m, rest)) :
    rest.length + 1 = band.length := by
  obtain ⟨hm, rfl⟩ := minEntry_mem h
  rw [List.length_erase_of_mem hm]
  have : 1 ≤ band.length := List.length_pos.mpr (by rintro rfl; cases hm)
  omega

theorem flatMap_pairs_length {α β : Type} (f g : α → β) :
    ∀ (l : List α), (l.flatMap (fun a => [f a, g a])).length = 2 * l.length := by
  intro l
  induction l with
  | nil => rfl
  | cons a t ih => simp [List.flatMap_cons, ih]; omega

theorem faceCandidates_length (sz : List ℕ) (x : List ℤ) :
    (faceCandidates sz x).length = 2 * sz.length := by
  unfold faceCandidates
  rw [flatMap_pairs_length]
  simp

theorem UpdateNeighborsGo_length (solve : List ℤ → Except Err K)
    (g : List ℤ → Option K) (sz : List ℕ) :
    ∀ (cands : List (List ℤ)) (l : List (K × List ℤ)),
      UpdateNeighborsGo solve g sz cands = .ok l → l.length ≤ cands.length := by
  intro cands
  induction cands with
  | nil =>
    intro l h
    cases h
    simp
  | cons c t ih =>
    intro l h
    unfold UpdateNeighborsGo at h
    by_cases hc : (Inside c sz && !(g c).isSome) = true
    · rw [if_pos hc] at h
      cases hs : solve c with
      | error e => rw [hs] at h; cases h
      | ok u =>
        rw [hs] at h
        cases hgo : UpdateNeighborsGo solve g sz t with
        | error e => rw [hgo] at h; cases h
        | ok l' =>
          rw [hgo] at h
          simp only [Except.map] at h
          cases h
          simpa using Nat.succ_le_succ (ih l' hgo)
    · rw [if_neg hc] at h
      exact le_trans (ih l h) (Nat.le_succ _)

theorem UpdateNeighbors_length
    {solver : List ℤ → (List ℤ → Option K) → Except Err K} {sz : List ℕ}
    {x : List ℤ} {g : List ℤ → Option K} {pushes : List (K × List ℤ)}
    (h : UpdateNeighbors solver sz x g = .ok pushes) :
    pushes.length ≤ 2 * sz.length := by
  have := UpdateNeighborsGo_length (fun c => solver c g) g sz
    (faceCandidates sz x) pushes h
  rwa [faceCandidates_length] at this

end BandLemmas

section MarchTheorems

variable {K : Type} [LinearOrderedField K]

theorem marchFuelO_isSome
    (solver : List ℤ → (List ℤ → Option K) → Except Err K) (sz : List ℕ) :
    ∀ (fuel : ℕ) (band : List (K × List ℤ)) (g : List ℤ → Option K),
      band.length + (2 * sz.length + 1) * unfrozenCount sz g < fuel →
      (marchFuelO solver sz fuel band g).isSome = true := by
  intro fuel
  induction fuel with
  | zero => intro band g h; omega
  | succ n ih =>
    intro band g h
    unfold marchFuelO
    cases hmin : minEntry band with
    | none => simp
    | some p =>
      obtain ⟨⟨d, x⟩, rest⟩ := p
      dsimp only
      have hrest := minEntry_rest_length hmin
      by_cases hx : Inside x sz = true
      · rw [if_pos hx]
        by_cases hfz : (g x).isSome = true
        · rw [if_pos hfz]
          have hih := ih rest g (by
            generalize (2 * sz.length + 1) * unfrozenCount sz g = A at h ⊢
            omega)
          simpa using hih
        · rw [if_neg hfz]
          have hgx : g x = none := by
            cases hgg : g x
            · rfl
            · rw [hgg] at hfz; simp at hfz
          cases hupd : UpdateNeighbors solver sz x (gUpdate g x (some d)) with
          | error e => simp
          | ok pushes =>
            have hcount := unfrozenCount_update (g := g) (d := d) hx hgx
            have hlen := UpdateNeighbors_length hupd
            have hih := ih (rest ++ pushes) (gUpdate g x (some d)) (by
              rw [List.length_append]
              have hWU : (2 * sz.length + 1) * unfrozenCount sz g =
                  (2 * sz.length + 1) *
                      unfrozenCount sz (gUpdate g x (some d)) +
                    (2 * sz.length + 1) := by
                rw [← hcount]; ring
              rw [hWU] at h
              generalize (2 * sz.length + 1) *
                unfrozenCount sz (gUpdate g x (some d)) = A at h ⊢
              omega)
            simpa using hih
      · rw [if_neg hx]
        simp

theorem marchFuelO_steps
    (solver : List ℤ → (List ℤ → Option K) → Except Err K) (sz : List ℕ) :
    ∀ (fuel : ℕ) (band : List (K × List ℤ)) (g : List ℤ → Option K)
      (r : Except Err (List ℤ → Option K)) (k : ℕ),
      marchFuelO solver sz fuel band g = some (r, k) →
      k ≤ band.length + 2 * sz.length * unfrozenCount sz g := by
  intro fuel
  induction fuel with
  | zero => intro band g r k h; simp [marchFuelO] at h
  | succ n ih =>
    intro band g r k h
    unfold marchFuelO at h
    cases hmin : minEntry band with
    | none =>
      rw [hmin] at h
      simp only [Option.some.injEq, Prod.mk.injEq] at h
      omega
    | some p =>
      obtain ⟨⟨d, x⟩, rest⟩ := p
      rw [hmin] at h
      dsimp only at h
      have hrest := minEntry_rest_length hmin
      by_cases hx : Inside x sz = true
      · rw [if_pos hx] at h
        by_cases hfz : (g x).isSome = true
        · rw [if_pos hfz] at h
          cases hrec : marchFuelO solver sz n rest g with
          | none => rw [hrec] at h; simp at h
          | some r' =>
            obtain ⟨r0, k0⟩ := r'
            rw [hrec] at h
            simp only [Option.map_some', Option.some.injEq,
              Prod.mk.injEq] at h
            obtain ⟨rfl, rfl⟩ := h
            have hk0 := ih rest g r0 k0 hrec
            generalize 2 * sz.length * unfrozenCount sz g = A at hk0 ⊢
            omega
        · rw [if_neg hfz] at h
          have hgx : g x = none := by
            cases hgg : g x
            · rfl
            · rw [hgg] at hfz; simp at hfz
          cases hupd : UpdateNeighbors solver sz x (gUpdate g x (some d)) with
          | error e =>
            rw [hupd] at h
            simp only [Option.some.injEq, Prod.mk.injEq] at h
            omega
          | ok pushes =>
            rw [hupd] at h
            dsimp only at h
            cases hrec : marchFuelO solver sz n (rest ++ pushes)
                (gUpdate g x (some d)) with
            | none => rw [hrec] at h; simp at h
            | some r' =>
              obtain ⟨r0, k0⟩ := r'
              rw [hrec] at h
              simp only [Option.map_some', Option.some.injEq,
                Prod.mk.injEq] at h
              obtain ⟨rfl, rfl⟩ := h
              have hk0 := ih _ _ r0 k0 hrec
              have hcount := unfrozenCount_update (g := g) (d := d) hx hgx
              have hlen := UpdateNeighbors_length hupd
              rw [List.length_append] at hk0
              have hWU : 2 * sz.length * unfrozenCount sz g =
                  2 * sz.length * unfrozenCount sz (gUpdate g x (some d)) +
                    2 * sz.length := by
                rw [← hcount]; ring
              rw [hWU]
              generalize 2 * sz.length *
                unfrozenCount sz (gUpdate g x (some d)) = A at hk0 ⊢
              omega
      · rw [if_neg hx] at h
        simp only [Option.some.injEq, Prod.mk.injEq] at h
        omega

theorem marchFuelO_mono
    (solver : List ℤ → (List ℤ → Option K) → Except Err K) (sz : List ℕ) :
    ∀ (n m : ℕ), n ≤ m →
      ∀ (band : List (K × List ℤ)) (g : List ℤ → Option K)
        (r : (Except Err (List ℤ → Option K)) × ℕ),
        marchFuelO solver sz n band g = some r →
        marchFuelO solver sz m band g = some r := by
  intro n
  induction n with
  | zero => intro m _ band g r h; simp [marchFuelO] at h
  | succ n ih =>
    intro m hm band g r h
    obtain ⟨m', rfl⟩ : ∃ m', m = m' + 1 := ⟨m - 1, by omega⟩
    have hm' : n ≤ m' := by omega
    unfold marchFuelO at h ⊢
    cases hmin : minEntry band with
    | none => rw [hmin] at h; exact h
    | some p =>
      obtain ⟨⟨d, x⟩, rest⟩ := p
      rw [hmin] at h
      dsimp only at h ⊢
      by_cases hx : Inside x sz = true
      · rw [if_pos hx] at h ⊢
        by_cases hfz : (g x).isSome = true
        · rw [if_pos hfz] at h ⊢
          cases hrec : marchFuelO solver sz n rest g with
          | none => rw [hrec] at h; simp at h
          | some r' =>
            rw [hrec] at h
            rw [ih m' hm' rest g r' hrec]
            exact h
        · rw [if_neg hfz] at h ⊢
          cases hupd : UpdateNeighbors solver sz x (gUpdate g x (some d)) with
          | error e => rw [hupd] at h; exact h
          | ok pushes =>
            rw [hupd] at h
            dsimp only at h ⊢
            cases hrec : marchFuelO solver sz n (rest ++ pushes)
                (gUpdate g x (some d)) with
            | none => rw [hrec] at h; simp at h
            | some r' =>
              rw [hrec] at h
              rw [ih m' hm' _ _ r' hrec]
              exact h
      · rw [if_neg hx] at h ⊢; exact h

theorem marchFuelO_preserves
    (solver : List ℤ → (List ℤ → Option K) → Except Err K) (sz : List ℕ) :
    ∀ (fuel : ℕ) (band : List (K × List ℤ)) (g : List ℤ → Option K)
      (x : List ℤ), (g x).isSome = true →
      ∀ (g' : List ℤ → Option K) (k : ℕ),
        marchFuelO solver sz fuel band g = some (.ok g', k) → g' x = g x := by
  intro fuel
  induction fuel with
  | zero => intro band g x hx g' k h; simp [marchFuelO] at h
  | succ n ih =>
    intro band g x hx g' k h
    unfold marchFuelO at h
    cases hmin : minEntry band with
    | none =>
      rw [hmin] at h
      simp only [Option.some.injEq, Prod.mk.injEq] at h
      rw [← Except.ok.inj h.1]
    | some p =>
      obtain ⟨⟨d, y⟩, rest⟩ := p
      rw [hmin] at h
      dsimp only at h
      by_cases hy : Inside y sz = true
      · rw [if_pos hy] at h
        by_cases hfz : (g y).isSome = true
        · rw [if_pos hfz] at h
          cases hrec : marchFuelO solver sz n rest g with
          | none => rw [hrec] at h; simp at h
          | some r' =>
            obtain ⟨r0, k0⟩ := r'
            rw [hrec] at h
            simp only [Option.map_some', Option.some.injEq,
              Prod.mk.injEq] at h
            obtain ⟨rfl, rfl⟩ := h
            exact ih rest g x hx g' k0 hrec
        · rw [if_neg hfz] at h
          have hne : y ≠ x := by
            rintro rfl
            rw [hx] at hfz
            exact hfz rfl
          have hx' : ((gUpdate g y (some d)) x).isSome = true := by
            simp only [gUpdate, if_neg (fun hh : x = y => hne hh.symm)]
            exact hx
          cases hupd : UpdateNeighbors solver sz y (gUpdate g y (some d)) with
          | error e => rw [hupd] at h; simp at h
          | ok pushes =>
            rw [hupd] at h
            dsimp only at h
            cases hrec : marchFuelO solver sz n (rest ++ pushes)
                (gUpdate g y (some d)) with
            | none => rw [hrec] at h; simp at h
            | some r' =>
              obtain ⟨r0, k0⟩ := r'
              rw [hrec] at h
              simp only [Option.map_some', Option.some.injEq,
                Prod.mk.injEq] at h
              obtain ⟨rfl, rfl⟩ := h
              have := ih (rest ++ pushes) (gUpdate g y (some d)) x hx' g' k0
                hrec
              rw [this]
              simp only [gUpdate, if_neg (fun hh : x = y => hne hh.symm)]
      · rw [if_neg hy] at h
        simp only [Option.some.injEq, Prod.mk.injEq] at h
        exact absurd h.1 (by simp)

theorem marchFuelO_succ_frozen
    (solver : List ℤ → (List ℤ → Option K) → Except Err K) (sz : List ℕ)
    (n : ℕ) (band : List (K × List ℤ)) (g : List ℤ → Option K) (d : K)
    (y : List ℤ) (rest : List (K × List ℤ))
    (hmin : minEntry band = some ((d, y), rest))
    (hiny : Inside y sz = true) (hfzy : (g y).isSome = true) :
    marchFuelO solver sz (n + 1) band g =
      (marchFuelO solver sz n rest g).map (fun r => (r.1, r.2 + 1)) := by
  unfold marchFuelO
  rw [hmin]
  dsimp only
  rw [if_pos hiny, if_pos hfzy, ← marchFuelO.eq_def]

theorem marchFuelO_succ_fail
    (solver : List ℤ → (List ℤ → Option K) → Except Err K) (sz : List ℕ)
    (n : ℕ) (band : List (K × List ℤ)) (g : List ℤ → Option K) (d : K)
    (y : List ℤ) (rest : List (K × List ℤ)) (e : Err)
    (hmin : minEntry band = some ((d, y), rest))
    (hiny : Inside y sz = true) (hfzy : (g y).isSome = false)
    (hupd : UpdateNeighbors solver sz y (gUpdate g y (some d)) = .error e) :
    marchFuelO solver sz (n + 1) band g = some (.error e, 1) := by
  unfold marchFuelO
  rw [hmin]
  dsimp only
  rw [if_pos hiny, if_neg (by simp [hfzy]), hupd]

/-- C5 (invariant I1): once a cell is frozen, no later iteration of the
marching loop changes its value (first conjunct: whatever grid a
successful march returns agrees with the input grid on every frozen
cell), and a popped entry whose cell is already frozen is discarded
without any write (second conjunct: the march on the whole band returns
exactly what the march on the remaining band returns). -/
theorem C5_frozen_cells_immutable {K : Type} [LinearOrderedField K]
    (solver : List ℤ → (List ℤ → Option K) → Except Err K) (sz : List ℕ)
    (band : List (K × List ℤ)) (g : List ℤ → Option K) (x : List ℤ)
    (hx : (g x).isSome = true) :
    (∀ (g' : List ℤ → Option K) (k : ℕ),
      MarchNarrowBand solver sz band g = (.ok g', k) → g' x = g x) ∧
    (∀ (d : K) (y : List ℤ) (rest : List (K × List ℤ)),
      minEntry band = some ((d, y), rest) → Inside y sz = true →
      (g y).isSome = true →
      (MarchNarrowBand solver sz band g).1 =
        (MarchNarrowBand solver sz rest g).1) := by
  constructor
  · intro g' k h
    unfold MarchNarrowBand at h
    cases hrec : marchFuelO solver sz (marchFuelBound sz band g) band g with
    | none =>
      rw [hrec] at h
      simp only [Option.getD] at h
      injection h with h1 h2
      exact Except.noConfusion h1
    | some r =>
      rw [hrec] at h
      simp only [Option.getD] at h
      rw [h] at hrec
      exact marchFuelO_preserves solver sz _ band g x hx g' k hrec
  · intro d y rest hmin hiny hfzy
    have hlen := minEntry_rest_length hmin
    unfold MarchNarrowBand
    rw [show marchFuelBound sz band g = (marchFuelBound sz rest g) + 1 from by
      unfold marchFuelBound; omega]
    rw [marchFuelO_succ_frozen solver sz _ band g d y rest hmin hiny hfzy]
    cases marchFuelO solver sz (marchFuelBound sz rest g) rest g <;> simp

/-- C5 witness: a 1-cell grid whose only cell is frozen at 1; the band
holds one stale entry `(3, [0])`, which is discarded without a write. -/
theorem C5_frozen_cells_immutable_witness :
    (w5Grid [0]).isSome = true ∧ w5Grid [0] = w5Grid [0] ∧
    (MarchNarrowBand q1Solver [1] [((3 : ℚ), [0])] w5Grid).1 =
      (MarchNarrowBand q1Solver [1] [] w5Grid).1 := by
  refine ⟨by decide, ?_, ?_⟩
  · exact (C5_frozen_cells_immutable q1Solver [1] [((3 : ℚ), [0])] w5Grid
      [0] (by decide)).1 w5Grid 1 rfl
  · exact (C5_frozen_cells_immutable q1Solver [1] [((3 : ℚ), [0])] w5Grid
      [0] (by decide)).2 3 [0] [] rfl (by decide) (by decide)

/-- C6 (amended): the marching loop always terminates — the fuel
`marchFuelBound` (initial band length, plus `2N` pushes for each of the
at most `unfrozenCount` freezing events, plus the empty-band check)
always suffices — and the number of loop iterations is at most
`band.length + 2N · unfrozenCount`. The claim's bound of `LinearSize`
iterations is refuted separately: stale duplicate entries make the loop
run more often than once per grid cell. -/
theorem C6_march_terminates_with_bound {K : Type} [LinearOrderedField K]
    (solver : List ℤ → (List ℤ → Option K) → Except Err K) (sz : List ℕ)
    (band : List (K × List ℤ)) (g : List ℤ → Option K) :
    (marchFuelO solver sz (marchFuelBound sz band g) band g).isSome =
      true ∧
    ∀ (r : Except Err (List ℤ → Option K)) (k : ℕ),
      MarchNarrowBand solver sz band g = (r, k) →
      k ≤ band.length + 2 * sz.length * unfrozenCount sz g := by
  have hsome := marchFuelO_isSome solver sz (marchFuelBound sz band g)
    band g (by unfold marchFuelBound; omega)
  refine ⟨hsome, ?_⟩
  intro r k h
  unfold MarchNarrowBand at h
  cases hrec : marchFuelO solver sz (marchFuelBound sz band g) band g with
  | none => rw [hrec] at hsome; simp at hsome
  | some r' =>
    rw [hrec] at h
    simp only [Option.getD] at h
    rw [h] at hrec
    exact marchFuelO_steps solver sz _ band g r k hrec

/-- C6 witness: the termination-and-bound theorem applied to the 1-cell
grid with the two-entry band `[(1,[0]), (2,[0])]`. -/
theorem C6_march_terminates_with_bound_witness :
    (marchFuelO q1Solver [1]
      (marchFuelBound [1] [((1 : ℚ), [0]), ((2 : ℚ), [0])] (fun _ => (none : Option ℚ)))
      [((1 : ℚ), [0]), ((2 : ℚ), [0])] (fun _ => (none : Option ℚ))).isSome = true ∧
    (MarchNarrowBand q1Solver [1] [((1 : ℚ), [0]), ((2 : ℚ), [0])]
        (fun _ => (none : Option ℚ))).2 ≤
      [((1 : ℚ), [0]), ((2 : ℚ), [0])].length +
        2 * [1].length * unfrozenCount [1] (fun _ => (none : Option ℚ)) :=
  ⟨(C6_march_terminates_with_bound q1Solver [1]
      [((1 : ℚ), [0]), ((2 : ℚ), [0])] (fun _ => (none : Option ℚ))).1,
    (C6_march_terminates_with_bound q1Solver [1]
      [((1 : ℚ), [0]), ((2 : ℚ), [0])] (fun _ => (none : Option ℚ))).2 _ _ rfl⟩

/-- C6 counterexample: on the 1-cell grid (`LinearSize [1] = 1`) with
the initial band `[(1,[0]), (2,[0])]` (a duplicate entry for the same
cell, as `UpdateNeighbors` routinely produces), the loop executes 2
iterations — more than `LinearSize` — because the second, stale entry
still costs an iteration when it is popped and discarded. -/
theorem C6_counterexample_steps_exceed_grid :
    (MarchNarrowBand q1Solver [1] [((1 : ℚ), [0]), ((2 : ℚ), [0])]
      (fun _ => (none : Option ℚ))).2 = 2 ∧
    LinearSize [1] = 1 ∧
    ¬((MarchNarrowBand q1Solver [1] [((1 : ℚ), [0]), ((2 : ℚ), [0])]
        (fun _ => (none : Option ℚ))).2 ≤ LinearSize [1]) := by
  exact ⟨by decide, rfl, by decide⟩

/-- C3 (amended): a quadratic failure while relaxing a neighbor of the
freshly frozen cell is not localized to that neighbor: `UpdateNeighbors`
throws, the marching loop propagates the exception immediately (the
march's result is that error, after exactly this one iteration), so no
further entry is pushed and no further cell is frozen. -/
theorem C3_quadratic_failure_aborts_march {K : Type}
    [LinearOrderedField K]
    (solver : List ℤ → (List ℤ → Option K) → Except Err K) (sz : List ℕ)
    (band : List (K × List ℤ)) (g : List ℤ → Option K) (d : K)
    (x : List ℤ) (rest : List (K × List ℤ)) (e : Err)
    (hmin : minEntry band = some ((d, x), rest))
    (hin : Inside x sz = true) (hfz : (g x).isSome = false)
    (hupd : UpdateNeighbors solver sz x (gUpdate g x (some d)) = .error e) :
    MarchNarrowBand solver sz band g = (.error e, 1) := by
  unfold MarchNarrowBand
  rw [show marchFuelBound sz band g = (marchFuelBound sz band g - 1) + 1
    from by unfold marchFuelBound; omega]
  rw [marchFuelO_succ_fail solver sz _ band g d x rest e hmin hin hfz hupd]
  rfl

end MarchTheorems

section C3Concrete

theorem c3_axisMin :
    axisMinFold (gUpdate c3Grid [2] (some (5 : ℝ))) [3] [1] 0 =
      some (-2 : ℝ) := by
  unfold axisMinFold
  simp only [List.foldl_cons, List.foldl_nil]
  norm_num [gUpdate, c3Grid, Inside, modifyIdx, stepMin]

theorem c3_solveFails :
    c3Solver [1] (gUpdate c3Grid [2] (some (5 : ℝ))) =
      .error .negativeDistance := by
  unfold c3Solver SolveEikonal
  simp only [List.length_cons, List.length_nil, List.range_succ,
    List.range_zero, List.nil_append, List.foldl_cons, List.foldl_nil,
    c3_axisMin]
  norm_num [SolveEikonalQuadratic, Squared, InverseSquared, List.getD,
    sqrt_four]

theorem c3_updFails :
    UpdateNeighbors c3Solver [3] [2] (gUpdate c3Grid [2] (some (5 : ℝ))) =
      .error .negativeDistance := by
  unfold UpdateNeighbors faceCandidates
  simp only [List.length_cons, List.length_nil, List.range_succ,
    List.range_zero, List.nil_append, List.flatMap_cons, List.flatMap_nil,
    List.append_nil]
  unfold UpdateNeighborsGo
  rw [if_pos (by norm_num [gUpdate, c3Grid, Inside, modifyIdx] :
    (Inside (modifyIdx [2] 0 (-1)) [3] &&
      !((gUpdate c3Grid [2] (some (5 : ℝ))) (modifyIdx [2] 0 (-1))).isSome) =
      true)]
  rw [show modifyIdx [2] 0 (-1) = ([1] : List ℤ) from by decide]
  rw [c3_solveFails]

/-- C3 counterexample: on the 1-D grid of extent 3 with the cell `[0]`
frozen at −2, popping the band entry `(5, [2])` freezes `[2]` and then
relaxing its neighbor `[1]` produces the quadratic root −1 < 0; the
march is aborted by that error — the failure is not localized, the loop
does not continue, and `[1]` is never frozen via any other neighbor. -/
theorem C3_counterexample_march_aborts :
    errOf (MarchNarrowBand c3Solver [3] [((5 : ℝ), [2])] c3Grid).1 =
      some .negativeDistance := by
  unfold MarchNarrowBand
  rw [show marchFuelBound [3] [((5 : ℝ), [2])] c3Grid = 7 + 1 from rfl]
  rw [marchFuelO_succ_fail c3Solver [3] 7 [((5 : ℝ), [2])] c3Grid 5 [2] []
    .negativeDistance (minEntry_single _) (by decide) rfl c3_updFails]
  rfl

/-- C3 witness (for the amended propagation theorem): the same concrete
configuration, with every hypothesis discharged by computation. -/
theorem C3_quadratic_failure_aborts_march_witness :
    MarchNarrowBand c3Solver [3] [((5 : ℝ), [2])] c3Grid =
      (.error .negativeDistance, 1) :=
  C3_quadratic_failure_aborts_march c3Solver [3] [((5 : ℝ), [2])] c3Grid
    5 [2] [] .negativeDistance (minEntry_single _) (by decide) rfl
    c3_updFails

end C3Concrete

section BoundaryTheorems

variable {K : Type} [LinearOrderedField K]

theorem setBoundaryConditionAux_ok (mult : K) (pred : K → Bool)
    (sz : List ℕ) :
    ∀ (pairs : List (List ℤ × K)) (g g' : List ℤ → Option K),
      SetBoundaryConditionAux mult pred sz pairs g = (g', none) →
      g' = writeSeeds mult pairs g := by
  intro pairs
  induction pairs with
  | nil =>
    intro g g' h
    injection h with h1 _
    rw [h1]
    rfl
  | cons p rest ih =>
    intro g g' h
    obtain ⟨i, d⟩ := p
    unfold SetBoundaryConditionAux at h
    by_cases h1 : Inside i sz = true
    · rw [if_pos h1] at h
      by_cases h2 : pred d = true
      · rw [if_pos h2] at h
        by_cases h3 : (g i).isSome = true
        · rw [if_pos h3] at h
          injection h with _ hc
          cases hc
        · rw [if_neg h3] at h
          exact ih _ _ h
      · rw [if_neg h2] at h
        injection h with _ hc
        cases hc
    · rw [if_neg h1] at h
      injection h with _ hc
      cases hc

theorem setBoundaryConditionAux_err (mult : K) (pred : K → Bool)
    (sz : List ℕ) :
    ∀ (pairs : List (List ℤ × K)) (g g' : List ℤ → Option K) (e : Err),
      SetBoundaryConditionAux mult pred sz pairs g = (g', some e) →
      ∃ (pre : List (List ℤ × K)) (i : List ℤ) (d : K)
        (post : List (List ℤ × K)),
        pairs = pre ++ (i, d) :: post ∧
        g' = writeSeeds mult pre g ∧
        (∀ q ∈ pre, Inside q.1 sz = true ∧ pred q.2 = true) ∧
        (Inside i sz = false ∨ pred d = false ∨
          ((writeSeeds mult pre g) i).isSome = true) := by
  intro pairs
  induction pairs with
  | nil =>
    intro g g' e h
    injection h with _ hc
    cases hc
  | cons p rest ih =>
    intro g g' e h
    obtain ⟨i, d⟩ := p
    unfold SetBoundaryConditionAux at h
    by_cases h1 : Inside i sz = true
    · rw [if_pos h1] at h
      by_cases h2 : pred d = true
      · rw [if_pos h2] at h
        by_cases h3 : (g i).isSome = true
        · rw [if_pos h3] at h
          injection h with hg _
          refine ⟨[], i, d, rest, rfl, hg.symm, by simp, ?_⟩
          right; right
          simpa [writeSeeds] using h3
        · rw [if_neg h3] at h
          obtain ⟨pre, i', d', post, hsplit, hg, hok, hfail⟩ := ih _ _ e h
          refine ⟨(i, d) :: pre, i', d', post, by rw [hsplit]; rfl, ?_, ?_,
            ?_⟩
          · rw [hg]; rfl
          · intro q hq
            rcases List.mem_cons.mp hq with rfl | hq'
            · exact ⟨h1, h2⟩
            · exact hok q hq'
          · simpa [writeSeeds] using hfail
      · rw [if_neg h2] at h
        injection h with hg he
        refine ⟨[], i, d, rest, rfl, hg.symm, by simp, ?_⟩
        right; left
        exact eq_false_of_ne_true h2
    · rw [if_neg h1] at h
      injection h with hg he
      refine ⟨[], i, d, rest, rfl, hg.symm, by simp, ?_⟩
      left
      exact eq_false_of_ne_true h1

/-- C4 (amended): only the empty-seed-list and length-mismatch failures
are reported before any distance-grid write. A failure inside the
validating loop (out-of-bounds index, predicate-rejected distance,
duplicate index) is reported only when the loop reaches the offending
seed, at which point every earlier seed of the list has already been
written into the grid (`writeSeeds`); on a loop that completes, all
seeds are written — so the whole-grid-frozen error too is raised after
all writes. (The driver's buffer is local and discarded on throw, so
the partial writes do not escape the driver.) -/
theorem C4_precondition_failures_after_writes (mult : K) (pred : K → Bool)
    (sz : List ℕ) :
    (∀ (indices : List (List ℤ)) (distances : List K)
      (g : List ℤ → Option K), indices.isEmpty = true →
      SetBoundaryCondition indices distances mult pred sz g =
        .error .emptyIndices) ∧
    (∀ (indices : List (List ℤ)) (distances : List K)
      (g : List ℤ → Option K), indices.isEmpty = false →
      indices.length ≠ distances.length →
      SetBoundaryCondition indices distances mult pred sz g =
        .error .sizeMismatch) ∧
    (∀ (pairs : List (List ℤ × K)) (g g' : List ℤ → Option K) (e : Err),
      SetBoundaryConditionAux mult pred sz pairs g = (g', some e) →
      ∃ (pre : List (List ℤ × K)) (i : List ℤ) (d : K)
        (post : List (List ℤ × K)),
        pairs = pre ++ (i, d) :: post ∧ g' = writeSeeds mult pre g ∧
        (∀ q ∈ pre, Inside q.1 sz = true ∧ pred q.2 = true) ∧
        (Inside i sz = false ∨ pred d = false ∨
          ((writeSeeds mult pre g) i).isSome = true)) ∧
    (∀ (pairs : List (List ℤ × K)) (g g' : List ℤ → Option K),
      SetBoundaryConditionAux mult pred sz pairs g = (g', none) →
      g' = writeSeeds mult pairs g) := by
  refine ⟨?_, ?_, setBoundaryConditionAux_err mult pred sz,
    setBoundaryConditionAux_ok mult pred sz⟩
  · intro indices distances g he
    unfold SetBoundaryCondition
    rw [if_pos he]
  · intro indices distances g he hne
    unfold SetBoundaryCondition
    rw [if_neg (by simp [he]), if_pos hne]

/-- C4 witness: the loop characterization applied to the seed list
`[([0], 1), ([9], 1)]` on the 1-D grid of extent 3 (the second index is
out of bounds), and the empty-list clause applied to an empty list. -/
theorem C4_precondition_failures_after_writes_witness :
    SetBoundaryCondition ([] : List (List ℤ)) ([] : List ℚ) 1
        (fun d => decide (0 ≤ d)) [3] (fun _ => none) =
      .error .emptyIndices ∧
    ∃ (pre : List (List ℤ × ℚ)) (i : List ℤ) (d : ℚ)
      (post : List (List ℤ × ℚ)),
      ([([0], 1), ([9], 1)] : List (List ℤ × ℚ)) = pre ++ (i, d) :: post ∧
      (SetBoundaryConditionAux (1 : ℚ) (fun d => decide (0 ≤ d)) [3]
        [([0], 1), ([9], 1)] (fun _ => none)).1 =
        writeSeeds 1 pre (fun _ => none) ∧
      (∀ q ∈ pre, Inside q.1 [3] = true ∧ decide ((0 : ℚ) ≤ q.2) = true) ∧
      (Inside i [3] = false ∨ decide ((0 : ℚ) ≤ d) = false ∨
        ((writeSeeds 1 pre (fun _ => none)) i).isSome = true) :=
  ⟨(C4_precondition_failures_after_writes (1 : ℚ)
      (fun d => decide (0 ≤ d)) [3]).1 [] [] (fun _ => none) rfl,
    (C4_precondition_failures_after_writes (1 : ℚ)
      (fun d => decide (0 ≤ d)) [3]).2.2.1 [([0], 1), ([9], 1)]
      (fun _ => none) _ .indexOutsideGrid rfl⟩

/-- C4 counterexample: seeds `[([0], 1), ([9], 1)]` on the 1-D grid of
extent 3: the out-of-bounds error for the second seed is reported only
after the first seed has been written into the distance grid, so the
precondition failure does not leave the buffer untouched. -/
theorem C4_counterexample_write_before_error :
    (SetBoundaryConditionAux (1 : ℚ) (fun d => decide (0 ≤ d)) [3]
      [([0], 1), ([9], 1)] (fun _ => none)).2 = some .indexOutsideGrid ∧
    ((SetBoundaryConditionAux (1 : ℚ) (fun d => decide (0 ≤ d)) [3]
      [([0], 1), ([9], 1)] (fun _ => none)).1 [0]).isSome = true ∧
    ((fun _ => (none : Option ℚ)) ([0] : List ℤ)).isSome = false := by
  exact ⟨by decide, by decide, by decide⟩

end BoundaryTheorems

section SignedTheorems

theorem frozen_scan_to_seed (lab : List ℤ → NarrowBandCell)
    (fi : List (List ℤ)) (n : ℕ) (x : List ℤ)
    (hsound : ∀ y, lab y = .frozenCell → y ∈ fi)
    (h : hasFrozenFaceNeighbor lab n x = true) :
    hasSeedFaceNeighbor fi n x = true := by
  simp only [hasFrozenFaceNeighbor, List.any_eq_true,
    decide_eq_true_eq] at h
  obtain ⟨i, hi, off, hoff, hfr⟩ := h
  simp only [hasSeedFaceNeighbor, List.any_eq_true, decide_eq_true_eq]
  exact ⟨i, hi, off, hoff, hsound _ hfr⟩

theorem fUpdate_narrowBand_sound {lab : List ℤ → NarrowBandCell}
    {fi : List (List ℤ)} (hsound : ∀ y, lab y = .frozenCell → y ∈ fi)
    (c : List ℤ) :
    ∀ y, (fUpdate lab c .narrowBand) y = .frozenCell → y ∈ fi := by
  intro y hy
  unfold fUpdate at hy
  by_cases hyc : y = c
  · rw [if_pos hyc] at hy
    cases hy
  · rw [if_neg hyc] at hy
    exact hsound y hy

theorem outerBandGo_spec (n : ℕ) (fi : List (List ℤ)) :
    ∀ (cells : List (List ℤ))
      (st : (List ℤ → NarrowBandCell) × List (List ℤ)),
      (∀ y, st.1 y = .frozenCell → y ∈ fi) →
      (∀ y, (outerBandGo n cells st).1 y = .frozenCell → y ∈ fi) ∧
      (∀ x ∈ (outerBandGo n cells st).2, x ∈ st.2 ∨
        (x ∈ cells ∧ hasSeedFaceNeighbor fi n x = true)) := by
  intro cells
  induction cells with
  | nil =>
    intro st hsound
    exact ⟨hsound, fun x hx => Or.inl hx⟩
  | cons c rest ih =>
    intro st hsound
    unfold outerBandGo
    by_cases hc : st.1 c = .background ∧ hasFrozenFaceNeighbor st.1 n c = true
    · rw [if_pos hc]
      have hsound' := fUpdate_narrowBand_sound hsound c
      obtain ⟨h1, h2⟩ := ih (fUpdate st.1 c .narrowBand, st.2 ++ [c]) hsound'
      refine ⟨h1, ?_⟩
      intro x hx
      rcases h2 x hx with hmem | ⟨hcell, hnbr⟩
      · rcases List.mem_append.mp hmem with h | h
        · exact Or.inl h
        · have : x = c := by simpa using h
          subst this
          exact Or.inr ⟨List.mem_cons_self _ _,
            frozen_scan_to_seed st.1 fi n x hsound hc.2⟩
      · exact Or.inr ⟨List.mem_cons_of_mem _ hcell, hnbr⟩
    · rw [if_neg hc]
      obtain ⟨h1, h2⟩ := ih st hsound
      refine ⟨h1, ?_⟩
      intro x hx
      rcases h2 x hx with h | ⟨hcell, hnbr⟩
      · exact Or.inl h
      · exact Or.inr ⟨List.mem_cons_of_mem _ hcell, hnbr⟩

theorem innerBandGo_spec (n : ℕ) (fi : List (List ℤ)) :
    ∀ (cells : List (List ℤ))
      (st : (List ℤ → NarrowBandCell) × List (List ℤ)),
      (∀ y, st.1 y = .frozenCell → y ∈ fi) →
      (∀ y, (innerBandGo n cells st).1 y = .frozenCell → y ∈ fi) ∧
      (∀ x ∈ (innerBandGo n cells st).2, x ∈ st.2 ∨
        (x ∈ cells ∧ hasSeedFaceNeighbor fi n x = true)) := by
  intro cells
  induction cells with
  | nil =>
    intro st hsound
    exact ⟨hsound, fun x hx => Or.inl hx⟩
  | cons c rest ih =>
    intro st hsound
    unfold innerBandGo
    by_cases hc : hasFrozenFaceNeighbor st.1 n c = true
    · rw [if_pos hc]
      have hsound' := fUpdate_narrowBand_sound hsound c
      obtain ⟨h1, h2⟩ := ih (fUpdate st.1 c .narrowBand, st.2 ++ [c]) hsound'
      refine ⟨h1, ?_⟩
      intro x hx
      rcases h2 x hx with hmem | ⟨hcell, hnbr⟩
      · rcases List.mem_append.mp hmem with h | h
        · exact Or.inl h
        · have : x = c := by simpa using h
          subst this
          exact Or.inr ⟨List.mem_cons_self _ _,
            frozen_scan_to_seed st.1 fi n x hsound hc⟩
      · exact Or.inr ⟨List.mem_cons_of_mem _ hcell, hnbr⟩
    · rw [if_neg hc]
      obtain ⟨h1, h2⟩ := ih st hsound
      refine ⟨h1, ?_⟩
      intro x hx
      rcases h2 x hx with h | ⟨hcell, hnbr⟩
      · exact Or.inl h
      · exact Or.inr ⟨List.mem_cons_of_mem _ hcell, hnbr⟩

theorem innerBandsGo_spec (n : ℕ) (fi : List (List ℤ))
    (bands : List (List (List ℤ))) :
    ∀ (ps : List (ℕ × ℤ))
      (st : (List ℤ → NarrowBandCell) × List (List ℤ)),
      (∀ y, st.1 y = .frozenCell → y ∈ fi) →
      (∀ y, (innerBandsGo n bands ps st).1 y = .frozenCell → y ∈ fi) ∧
      (∀ x ∈ (innerBandsGo n bands ps st).2, x ∈ st.2 ∨
        (∃ p ∈ ps, x ∈ bands.getD p.1 [] ∧
          hasSeedFaceNeighbor fi n x = true)) := by
  intro ps
  induction ps with
  | nil =>
    intro st hsound
    exact ⟨hsound, fun x hx => Or.inl hx⟩
  | cons p rest ih =>
    intro st hsound
    unfold innerBandsGo
    obtain ⟨h1, h2⟩ := innerBandGo_spec n fi (bands.getD p.1 []) st hsound
    obtain ⟨h1', h2'⟩ := ih (innerBandGo n (bands.getD p.1 []) st) h1
    refine ⟨h1', ?_⟩
    intro x hx
    rcases h2' x hx with hmem | ⟨q, hq, hband, hnbr⟩
    · rcases h2 x hmem with h | ⟨hcell, hnbr⟩
      · exact Or.inl h
      · exact Or.inr ⟨p, List.mem_cons_self _ _, hcell, hnbr⟩
    · exact Or.inr ⟨q, List.mem_cons_of_mem _ hq, hband, hnbr⟩

theorem signedComponentStep_spec (sz : List ℕ) (fi : List (List ℤ))
    (st st' : (List ℤ → NarrowBandCell) × List (List ℤ) × List (List ℤ))
    (comp : List (List ℤ))
    (hsound : ∀ y, st.1 y = .frozenCell → y ∈ fi)
    (h : signedComponentStep sz st comp = .ok st') :
    (∀ y, st'.1 y = .frozenCell → y ∈ fi) ∧
    (∀ x ∈ st'.2.1, x ∈ st.2.1 ∨
      ((∃ p ∈ (bandAreasSorted (DilationBands comp sz) sz.length).drop 1,
        x ∈ (DilationBands comp sz).getD p.1 []) ∧
        hasSeedFaceNeighbor fi sz.length x = true)) ∧
    (∀ x ∈ st'.2.2, x ∈ st.2.2 ∨
      (x ∈ (DilationBands comp sz).getD
          ((bandAreasSorted (DilationBands comp sz) sz.length).getD 0
            (0, 0)).1 [] ∧
        hasSeedFaceNeighbor fi sz.length x = true)) := by
  simp only [signedComponentStep] at h
  by_cases hl : (DilationBands comp sz).length = 1
  · rw [if_pos hl] at h
    cases h
  · rw [if_neg hl] at h
    injection h with h'
    subst h'
    obtain ⟨ho1, ho2⟩ := outerBandGo_spec sz.length fi
      ((DilationBands comp sz).getD
        ((bandAreasSorted (DilationBands comp sz) sz.length).getD 0
          (0, 0)).1 [])
      (st.1, st.2.2) hsound
    obtain ⟨hi1, hi2⟩ := innerBandsGo_spec sz.length fi
      (DilationBands comp sz)
      ((bandAreasSorted (DilationBands comp sz) sz.length).drop 1)
      (_, st.2.1) ho1
    refine ⟨hi1, ?_, ?_⟩
    · intro x hx
      rcases hi2 x hx with hmem | ⟨p, hp, hband, hnbr⟩
      · exact Or.inl hmem
      · exact Or.inr ⟨⟨p, hp, hband⟩, hnbr⟩
    · intro x hx
      rcases ho2 x hx with hmem | ⟨hband, hnbr⟩
      · exact Or.inl hmem
      · exact Or.inr ⟨hband, hnbr⟩

theorem signedComponentsGo_spec (sz : List ℕ) (fi : List (List ℤ)) :
    ∀ (comps : List (List (List ℤ)))
      (st stf : (List ℤ → NarrowBandCell) × List (List ℤ) ×
        List (List ℤ)),
      (∀ y, st.1 y = .frozenCell → y ∈ fi) →
      signedComponentsGo sz comps st = .ok stf →
      (∀ x ∈ stf.2.1, x ∈ st.2.1 ∨
        ((∃ comp ∈ comps,
          ∃ p ∈ (bandAreasSorted (DilationBands comp sz) sz.length).drop 1,
            x ∈ (DilationBands comp sz).getD p.1 []) ∧
          hasSeedFaceNeighbor fi sz.length x = true)) ∧
      (∀ x ∈ stf.2.2, x ∈ st.2.2 ∨
        ((∃ comp ∈ comps,
          x ∈ (DilationBands comp sz).getD
            ((bandAreasSorted (DilationBands comp sz) sz.length).getD 0
              (0, 0)).1 []) ∧
          hasSeedFaceNeighbor fi sz.length x = true)) := by
  intro comps
  induction comps with
  | nil =>
    intro st stf hsound h
    unfold signedComponentsGo at h
    injection h with h'
    subst h'
    exact ⟨fun x hx => Or.inl hx, fun x hx => Or.inl hx⟩
  | cons comp rest ih =>
    intro st stf hsound h
    unfold signedComponentsGo at h
    cases hstep : signedComponentStep sz st comp with
    | error e => rw [hstep] at h; cases h
    | ok st1 =>
      rw [hstep] at h
      obtain ⟨hs1, hs2, hs3⟩ :=
        signedComponentStep_spec sz fi st st1 comp hsound hstep
      obtain ⟨hr2, hr3⟩ := ih st1 stf hs1 h
      constructor
      · intro x hx
        rcases hr2 x hx with hmem | ⟨⟨c, hc, hrest⟩, hnbr⟩
        · rcases hs2 x hmem with h' | ⟨hband, hnbr⟩
          · exact Or.inl h'
          · exact Or.inr ⟨⟨comp, List.mem_cons_self _ _, hband⟩, hnbr⟩
        · exact Or.inr ⟨⟨c, List.mem_cons_of_mem _ hc, hrest⟩, hnbr⟩
      · intro x hx
        rcases hr3 x hx with hmem | ⟨⟨c, hc, hrest⟩, hnbr⟩
        · rcases hs3 x hmem with h' | ⟨hband, hnbr⟩
          · exact Or.inl h'
          · exact Or.inr ⟨⟨comp, List.mem_cons_self _ _, hband⟩, hnbr⟩
        · exact Or.inr ⟨⟨c, List.mem_cons_of_mem _ hc, hrest⟩, hnbr⟩

theorem signedComponentsGo_openComponent (sz : List ℕ) :
    ∀ (comps : List (List (List ℤ)))
      (st : (List ℤ → NarrowBandCell) × List (List ℤ) × List (List ℤ)),
      (∃ c ∈ comps, (DilationBands c sz).length = 1) →
      signedComponentsGo sz comps st = .error .openComponent := by
  intro comps
  induction comps with
  | nil =>
    rintro st ⟨c, hc, _⟩
    cases hc
  | cons comp rest ih =>
    rintro st ⟨c, hc, hlen⟩
    unfold signedComponentsGo
    cases hstep : signedComponentStep sz st comp with
    | error e =>
      have he : e = .openComponent := by
        simp only [signedComponentStep] at hstep
        by_cases hl : (DilationBands comp sz).length = 1
        · rw [if_pos hl] at hstep
          injection hstep with h'
          exact h'.symm
        · rw [if_neg hl] at hstep
          cases hstep
      rw [he]
    | ok st1 =>
      rcases List.mem_cons.mp hc with rfl | hcr
      · exfalso
        simp only [signedComponentStep] at hstep
        rw [if_pos hlen] at hstep
        cases hstep
      · exact ih st1 ⟨c, hcr, hlen⟩

theorem InitialSignedNarrowBands_open (fi : List (List ℤ)) (sz : List ℕ)
    (hband : ∃ c ∈ ConnectedComponents fi sz
      (VertexNeighborOffsets sz.length), (DilationBands c sz).length = 1) :
    InitialSignedNarrowBands fi sz = .error .openComponent := by
  simp only [InitialSignedNarrowBands, bind, Except.bind]
  rw [signedComponentsGo_openComponent sz _ _ hband]

theorem InitialSignedNarrowBands_sound (fi : List (List ℤ)) (sz : List ℕ)
    (il ol : List (List ℤ))
    (h : InitialSignedNarrowBands fi sz = .ok (il, ol)) :
    (∀ x ∈ il,
      (∃ comp ∈ ConnectedComponents fi sz (VertexNeighborOffsets sz.length),
        ∃ p ∈ (bandAreasSorted (DilationBands comp sz) sz.length).drop 1,
          x ∈ (DilationBands comp sz).getD p.1 []) ∧
      hasSeedFaceNeighbor fi sz.length x = true) ∧
    (∀ x ∈ ol,
      (∃ comp ∈ ConnectedComponents fi sz (VertexNeighborOffsets sz.length),
        x ∈ (DilationBands comp sz).getD
          ((bandAreasSorted (DilationBands comp sz) sz.length).getD 0
            (0, 0)).1 []) ∧
      hasSeedFaceNeighbor fi sz.length x = true) := by
  simp only [InitialSignedNarrowBands, bind, Except.bind] at h
  cases hgo : signedComponentsGo sz
      (ConnectedComponents fi sz (VertexNeighborOffsets sz.length))
      ((fun x => if x ∈ fi then NarrowBandCell.frozenCell
        else NarrowBandCell.background), [], []) with
  | error e =>
    rw [hgo] at h
    cases h
  | ok st =>
    rw [hgo] at h
    injection h with h'
    have hil : il = st.2.1 := (congrArg Prod.fst h').symm
    have hol : ol = st.2.2 := (congrArg Prod.snd h').symm
    obtain ⟨h2, h3⟩ := signedComponentsGo_spec sz fi _ _ st
      (by
        intro y hy
        by_cases hm : y ∈ fi
        · exact hm
        · simp only [if_neg hm] at hy
          cases hy)
      hgo
    constructor
    · intro x hx
      rcases h2 x (hil ▸ hx) with hmem | ⟨hb, hn⟩
      · cases hmem
      · exact ⟨hb, hn⟩
    · intro x hx
      rcases h3 x (hol ▸ hx) with hmem | ⟨hb, hn⟩
      · cases hmem
      · exact ⟨hb, hn⟩

/-- C7 (amended): in `SignedDistance`, the first march is seeded from
the INSIDE list of `InitialSignedNarrowBands` and the second from the
OUTSIDE list (the claim has the two swapped). Every index in the inside
list lies in a non-largest-bounding-box dilation band of its seed
component and touches a seed by face adjacency; every index in the
outside list lies in the largest-bounding-box band of its component and
touches a seed; and the sign-flip between the two marches negates every
frozen cell while sentinel cells remain sentinels. -/
theorem C7_signed_pipeline_inside_first {K : Type} [LinearOrderedField K]
    (fi : List (List ℤ)) (sz : List ℕ) (il ol : List (List ℤ))
    (h : InitialSignedNarrowBands fi sz = .ok (il, ol)) :
    (∀ x ∈ il,
      (∃ comp ∈ ConnectedComponents fi sz (VertexNeighborOffsets sz.length),
        ∃ p ∈ (bandAreasSorted (DilationBands comp sz) sz.length).drop 1,
          x ∈ (DilationBands comp sz).getD p.1 []) ∧
      hasSeedFaceNeighbor fi sz.length x = true) ∧
    (∀ x ∈ ol,
      (∃ comp ∈ ConnectedComponents fi sz (VertexNeighborOffsets sz.length),
        x ∈ (DilationBands comp sz).getD
          ((bandAreasSorted (DilationBands comp sz) sz.length).getD 0
            (0, 0)).1 []) ∧
      hasSeedFaceNeighbor fi sz.length x = true) ∧
    (∀ (g : List ℤ → Option K) (x : List ℤ),
      (g x = none → negateFrozen g x = none) ∧
      ∀ d : K, g x = some d → negateFrozen g x = some (-d)) := by
  obtain ⟨h1, h2⟩ := InitialSignedNarrowBands_sound fi sz il ol h
  refine ⟨h1, h2, ?_⟩
  intro g x
  constructor
  · intro hg
    unfold negateFrozen
    rw [hg]
    rfl
  · intro d hg
    unfold negateFrozen
    rw [hg]
    rfl

/-- C7 witness: the amended pipeline theorem applied to the ring of
eight seeds around `(2,2)` in the 5×5 grid. -/
theorem C7_signed_pipeline_inside_first_witness :
    (∀ x ∈ [([2, 2] : List ℤ)],
      (∃ comp ∈ ConnectedComponents ringSeeds [5, 5]
          (VertexNeighborOffsets 2),
        ∃ p ∈ (bandAreasSorted (DilationBands comp [5, 5]) 2).drop 1,
          x ∈ (DilationBands comp [5, 5]).getD p.1 []) ∧
      hasSeedFaceNeighbor ringSeeds 2 x = true) ∧
    (∀ x ∈ ([[1, 0], [0, 1], [0, 2], [0, 3], [1, 4], [2, 4], [3, 4],
        [4, 3], [4, 2], [4, 1], [3, 0], [2, 0]] : List (List ℤ)),
      (∃ comp ∈ ConnectedComponents ringSeeds [5, 5]
          (VertexNeighborOffsets 2),
        x ∈ (DilationBands comp [5, 5]).getD
          ((bandAreasSorted (DilationBands comp [5, 5]) 2).getD 0
            (0, 0)).1 []) ∧
      hasSeedFaceNeighbor ringSeeds 2 x = true) ∧
    (∀ (g : List ℤ → Option ℚ) (x : List ℤ),
      (g x = none → negateFrozen g x = none) ∧
      ∀ d : ℚ, g x = some d → negateFrozen g x = some (-d)) :=
  C7_signed_pipeline_inside_first ringSeeds [5, 5] [[2, 2]]
    [[1, 0], [0, 1], [0, 2], [0, 3], [1, 4], [2, 4], [3, 4], [4, 3],
      [4, 2], [4, 1], [3, 0], [2, 0]] rfl

/-- C7 counterexample: for the ring of eight seeds around `(2,2)` in the
5×5 grid, the list seeding the FIRST march (`InitialSignedNarrowBands`'s
inside list, the first `InitializeNarrowBand` argument in
`SignedDistance`) is `[[2,2]]` — the single inner-band cell — while the
claim's outside-band cells (largest-bounding-box band cells with a seed
face neighbor, which are exactly the code's SECOND-march seeds) are the
twelve boundary cells, which do not even contain `[2,2]`. -/
theorem C7_counterexample_first_march_is_inside :
    (InitialSignedNarrowBands ringSeeds [5, 5]).toOption.map Prod.fst =
      some [[2, 2]] ∧
    ([2, 2] ∈ ClaimOutsideSeeds ringSeeds [5, 5]) = False ∧
    (InitialSignedNarrowBands ringSeeds [5, 5]).toOption.map Prod.snd =
      some (ClaimOutsideSeeds ringSeeds [5, 5]) := by
  exact ⟨by decide, by decide, by decide⟩

/-- C8: whenever some vertex-connected seed component has exactly one
dilation band, `InitialSignedNarrowBands` throws the open-component
error, and (once the up-front validations and the boundary-condition
installation pass) `SignedDistance` fails with exactly that error. In
particular — see the witness — a single isolated seed cell produces one
face-connected dilation shell and therefore this error. -/
theorem C8_open_component_error {K : Type} [LinearOrderedField K]
    (sq : K → K) (sz : List ℕ) (dx : List K) (speed : K)
    (fi : List (List ℤ)) (fd : List K)
    (hval : errOf (SignedDistanceValidate sz dx speed fi fd) = none)
    (hsbc : errOf (SetBoundaryCondition fi fd (-1) (fun _ => true) sz
      (fun _ => none)) = none)
    (hband : (ConnectedComponents fi sz
        (VertexNeighborOffsets sz.length)).any
      (fun c => (DilationBands c sz).length == 1) = true) :
    SignedDistance sq sz dx speed fi fd = .error .openComponent := by
  have hband' : ∃ c ∈ ConnectedComponents fi sz
      (VertexNeighborOffsets sz.length), (DilationBands c sz).length = 1 := by
    simpa using hband
  simp only [SignedDistance]
  cases hv : SignedDistanceValidate sz dx speed fi fd with
  | error e =>
    rw [hv] at hval
    simp [errOf] at hval
  | ok u =>
    dsimp only
    cases hsbc2 : SetBoundaryCondition fi fd (-1) (fun _ => true) sz
        (fun _ => none) with
    | error e =>
      rw [hsbc2] at hsbc
      simp [errOf] at hsbc
    | ok g =>
      dsimp only
      rw [InitialSignedNarrowBands_open fi sz hband']

/-- C8 witness: the single isolated seed `(2,2)` in the 5×5 grid over ℚ
makes `SignedDistance` fail with the open-component error. -/
theorem C8_open_component_error_witness :
    errOf (SignedDistanceValidate [5, 5] [1, 1] (1 : ℚ) [[2, 2]] [0]) =
      none ∧
    errOf (SetBoundaryCondition [[2, 2]] [(0 : ℚ)] (-1) (fun _ => true)
      [5, 5] (fun _ => none)) = none ∧
    (ConnectedComponents [[2, 2]] [5, 5] (VertexNeighborOffsets 2)).any
      (fun c => (DilationBands c [5, 5]).length == 1) = true ∧
    SignedDistance ratSqrt [5, 5] [1, 1] (1 : ℚ) [[2, 2]] [0] =
      .error .openComponent :=
  ⟨by decide, by decide, by decide,
    C8_open_component_error ratSqrt [5, 5] [1, 1] 1 [[2, 2]] [0]
      (by decide) (by decide) (by decide)⟩

end SignedTheorems

section PermutationTheorems

variable {K : Type} [LinearOrderedField K]

theorem idxLtb_irrefl : ∀ (a : List ℤ), idxLtb a a = false := by
  intro a
  induction a with
  | nil => rfl
  | cons x xs ih => simp [idxLtb, ih]

theorem idxLtb_trans : ∀ (a b c : List ℤ), idxLtb a b = true →
    idxLtb b c = true → idxLtb a c = true := by
  intro a
  induction a with
  | nil =>
    intro b c hab hbc
    cases b with
    | nil => simp [idxLtb] at hab
    | cons y ys =>
      cases c with
      | nil => simp [idxLtb] at hbc
      | cons z zs => rfl
  | cons x xs ih =>
    intro b c hab hbc
    cases b with
    | nil => simp [idxLtb] at hab
    | cons y ys =>
      cases c with
      | nil => simp [idxLtb] at hbc
      | cons z zs =>
        simp only [idxLtb, Bool.or_eq_true, Bool.and_eq_true,
          decide_eq_true_eq] at hab hbc ⊢
        rcases hab with h1 | ⟨h1, h1b⟩
        · rcases hbc with h2 | ⟨h2, h2b⟩
          · exact Or.inl (by omega)
          · exact Or.inl (by omega)
        · rcases hbc with h2 | ⟨h2, h2b⟩
          · exact Or.inl (by omega)
          · exact Or.inr ⟨by omega, ih ys zs h1b h2b⟩

theorem idxLtb_total : ∀ (a b : List ℤ), a ≠ b →
    idxLtb a b = true ∨ idxLtb b a = true := by
  intro a
  induction a with
  | nil =>
    intro b hne
    cases b with
    | nil => exact absurd rfl hne
    | cons y ys => exact Or.inl rfl
  | cons x xs ih =>
    intro b hne
    cases b with
    | nil => exact Or.inr rfl
    | cons y ys =>
      simp only [idxLtb, Bool.or_eq_true, Bool.and_eq_true,
        decide_eq_true_eq]
      rcases lt_trichotomy x y with h | h | h
      · exact Or.inl (Or.inl h)
      · subst h
        have hne2 : xs ≠ ys := fun hh => hne (by rw [hh])
        rcases ih ys hne2 with h2 | h2
        · exact Or.inl (Or.inr ⟨rfl, h2⟩)
        · exact Or.inr (Or.inr ⟨rfl, h2⟩)
      · exact Or.inr (Or.inl h)

theorem entryLtb_irrefl (a : K × List ℤ) : entryLtb a a = false := by
  simp [entryLtb, idxLtb_irrefl]

theorem entryLtb_trans {a b c : K × List ℤ} (h1 : entryLtb a b = true)
    (h2 : entryLtb b c = true) : entryLtb a c = true := by
  simp only [entryLtb, Bool.or_eq_true, Bool.and_eq_true,
    decide_eq_true_eq] at h1 h2 ⊢
  rcases h1 with h1 | ⟨h1, h1b⟩
  · rcases h2 with h2 | ⟨h2, h2b⟩
    · exact Or.inl (lt_trans h1 h2)
    · exact Or.inl (by rw [← h2]; exact h1)
  · rcases h2 with h2 | ⟨h2, h2b⟩
    · exact Or.inl (by rw [h1]; exact h2)
    · exact Or.inr ⟨h1.trans h2, idxLtb_trans _ _ _ h1b h2b⟩

theorem entryLtb_total {a b : K × List ℤ} (h : a ≠ b) :
    entryLtb a b = true ∨ entryLtb b a = true := by
  obtain ⟨a1, a2⟩ := a
  obtain ⟨b1, b2⟩ := b
  simp only [entryLtb, Bool.or_eq_true, Bool.and_eq_true,
    decide_eq_true_eq]
  rcases lt_trichotomy a1 b1 with h1 | h1 | h1
  · exact Or.inl (Or.inl h1)
  · subst h1
    have h2 : a2 ≠ b2 := by
      intro hh
      exact h (by rw [hh])
    rcases idxLtb_total a2 b2 h2 with h3 | h3
    · exact Or.inl (Or.inr ⟨rfl, h3⟩)
    · exact Or.inr (Or.inr ⟨rfl, h3⟩)
  · exact Or.inr (Or.inl h1)

theorem pickMin_not_lt : ∀ (l : List (K × List ℤ)) (e : K × List ℤ),
    ∀ y ∈ e :: l, entryLtb y (pickMin e l) = false := by
  intro l
  induction l with
  | nil =>
    intro e y hy
    rcases List.mem_cons.mp hy with rfl | hy2
    · exact entryLtb_irrefl y
    · cases hy2
  | cons c t ih =>
    intro e y hy
    have hstep : pickMin e (c :: t) =
        pickMin (if entryLtb c e then c else e) t := rfl
    rw [hstep]
    by_cases hce : entryLtb c e = true
    · rw [if_pos hce]
      rcases List.mem_cons.mp hy with rfl | hy2
      · cases hcm : entryLtb y (pickMin c t) with
        | false => rfl
        | true =>
          have hA := ih c c (List.mem_cons_self c t)
          have hB := entryLtb_trans hce hcm
          rw [hA] at hB
          cases hB
      · exact ih c y hy2
    · rw [if_neg hce]
      rcases List.mem_cons.mp hy with rfl | hy2
      · exact ih y y (List.mem_cons_self y t)
      · rcases List.mem_cons.mp hy2 with rfl | hy3
        · cases hcm : entryLtb y (pickMin e t) with
          | false => rfl
          | true =>
            by_cases hye : y = e
            · have hA := ih e e (List.mem_cons_self e t)
              rw [hye] at hcm
              rw [hA] at hcm
              cases hcm
            · rcases entryLtb_total hye with h4 | h4
              · exact absurd h4 hce
              · have hA := ih e e (List.mem_cons_self e t)
                have hB := entryLtb_trans h4 hcm
                rw [hA] at hB
                cases hB
        · exact ih e y (List.mem_cons_of_mem e hy3)

theorem pickMin_eq_of_perm {e1 e2 : K × List ℤ}
    {l1 l2 : List (K × List ℤ)} (hperm : (e1 :: l1).Perm (e2 :: l2)) :
    pickMin e1 l1 = pickMin e2 l2 := by
  by_contra hne
  rcases entryLtb_total hne with h | h
  · have h12 : pickMin e1 l1 ∈ e2 :: l2 :=
      hperm.mem_iff.mp (pickMin_mem l1 e1)
    have hA := pickMin_not_lt l2 e2 _ h12
    rw [hA] at h
    cases h
  · have h21 : pickMin e2 l2 ∈ e1 :: l1 :=
      hperm.mem_iff.mpr (pickMin_mem l2 e2)
    have hA := pickMin_not_lt l1 e1 _ h21
    rw [hA] at h
    cases h

theorem minEntry_none_iff (band : List (K × List ℤ)) :
    minEntry band = none ↔ band = [] := by
  cases band <;> simp [minEntry]

theorem perm_erase_entry (a : K × List ℤ) :
    ∀ {l1 l2 : List (K × List ℤ)}, l1.Perm l2 →
      (l1.erase a).Perm (l2.erase a) := by
  intro l1 l2 hperm
  induction hperm with
  | nil => exact List.Perm.refl _
  | @cons x t1 t2 hp ih =>
    rw [List.erase_cons, List.erase_cons]
    by_cases hxa : (x == a) = true
    · rw [if_pos hxa, if_pos hxa]
      exact hp
    · rw [if_neg hxa, if_neg hxa]
      exact ih.cons x
  | @swap x y l =>
    by_cases hya : (y == a) = true
    · by_cases hxa : (x == a) = true
      · have hxy : x = y := by rw [eq_of_beq hxa, eq_of_beq hya]
        subst hxy
        exact List.Perm.refl _
      · simp only [List.erase_cons]
        rw [if_pos hya, if_neg hxa, if_pos hya]
    · by_cases hxa : (x == a) = true
      · simp only [List.erase_cons]
        rw [if_neg hya, if_pos hxa, if_pos hxa]
      · simp only [List.erase_cons]
        rw [if_neg hya, if_neg hxa, if_neg hxa, if_neg hya]
        exact List.Perm.swap x y (l.erase a)
  | @trans u v w h1 h2 ih1 ih2 =>
    exact ih1.trans ih2

theorem minEntry_perm {band1 band2 : List (K × List ℤ)}
    (hperm : band1.Perm band2) {m : K × List ℤ}
    {r1 : List (K × List ℤ)} (h : minEntry band1 = some (m, r1)) :
    ∃ r2, minEntry band2 = some (m, r2) ∧ r1.Perm r2 := by
  cases band1 with
  | nil => simp [minEntry] at h
  | cons e1 l1 =>
    cases band2 with
    | nil =>
      have hl := hperm.length_eq
      simp at hl
    | cons e2 l2 =>
      simp only [minEntry, Option.some.injEq, Prod.mk.injEq] at h
      obtain ⟨hm, hr⟩ := h
      have hpick : pickMin e2 l2 = m := by
        rw [← pickMin_eq_of_perm hperm]
        exact hm
      refine ⟨(e2 :: l2).erase m, ?_, ?_⟩
      · simp only [minEntry, hpick]
      · rw [← hr, hm]
        exact perm_erase_entry m hperm

theorem marchFuelO_perm
    (solver : List ℤ → (List ℤ → Option K) → Except Err K) (sz : List ℕ) :
    ∀ (fuel : ℕ) (band1 band2 : List (K × List ℤ))
      (g : List ℤ → Option K), band1.Perm band2 →
      marchFuelO solver sz fuel band1 g =
        marchFuelO solver sz fuel band2 g := by
  intro fuel
  induction fuel with
  | zero => intro band1 band2 g hperm; rfl
  | succ n ih =>
    intro band1 band2 g hperm
    cases hm : minEntry band1 with
    | none =>
      have h1 : band1 = [] := (minEntry_none_iff band1).mp hm
      subst h1
      have h2 : band2 = [] := hperm.symm.eq_nil
      subst h2
      rfl
    | some pr =>
      obtain ⟨⟨d, x⟩, r1⟩ := pr
      obtain ⟨r2, hm2, hr⟩ := minEntry_perm hperm hm
      simp only [marchFuelO]
      rw [hm, hm2]
      dsimp only
      by_cases hin : Inside x sz = true
      · rw [if_pos hin, if_pos hin]
        by_cases hfro : (g x).isSome = true
        · rw [if_pos hfro, if_pos hfro, ih r1 r2 g hr]
        · rw [if_neg hfro, if_neg hfro]
          cases UpdateNeighbors solver sz x (gUpdate g x (some d)) with
          | error e => rfl
          | ok pushes =>
            dsimp only
            rw [ih (r1 ++ pushes) (r2 ++ pushes) (gUpdate g x (some d))
              (hr.append_right pushes)]
      · rw [if_neg hin, if_neg hin]

theorem MarchNarrowBand_perm
    (solver : List ℤ → (List ℤ → Option K) → Except Err K) (sz : List ℕ)
    {band1 band2 : List (K × List ℤ)} (g : List ℤ → Option K)
    (h : band1.Perm band2) :
    MarchNarrowBand solver sz band1 g = MarchNarrowBand solver sz band2 g := by
  unfold MarchNarrowBand marchFuelBound
  rw [h.length_eq, marchFuelO_perm solver sz _ band1 band2 g h]

theorem gUpdate_comm {g : List ℤ → Option K} {x y : List ℤ}
    {u v : Option K} (h : x ≠ y) :
    gUpdate (gUpdate g x u) y v = gUpdate (gUpdate g y v) x u := by
  funext z
  unfold gUpdate
  by_cases hzx : z = x
  · subst hzx
    simp [h]
  · by_cases hzy : z = y
    · subst hzy
      simp [hzx]
    · simp [hzx, hzy]

theorem writeSeeds_perm (mult : K) :
    ∀ {pairs1 pairs2 : List (List ℤ × K)}, pairs1.Perm pairs2 →
      (pairs1.map Prod.fst).Nodup →
      ∀ g, writeSeeds mult pairs1 g = writeSeeds mult pairs2 g := by
  intro pairs1 pairs2 hperm
  induction hperm with
  | nil => intro hnd g; rfl
  | @cons x t1 t2 hp ih =>
    intro hnd g
    simp only [List.map_cons, List.nodup_cons] at hnd
    show writeSeeds mult t1 (gUpdate g x.1 (some (mult * x.2))) =
      writeSeeds mult t2 (gUpdate g x.1 (some (mult * x.2)))
    exact ih hnd.2 _
  | @swap x y l =>
    intro hnd g
    simp only [List.map_cons, List.nodup_cons, List.mem_cons] at hnd
    have hyx : y.1 ≠ x.1 := fun hh => hnd.1 (Or.inl hh)
    show writeSeeds mult l
        (gUpdate (gUpdate g y.1 (some (mult * y.2))) x.1
          (some (mult * x.2))) =
      writeSeeds mult l
        (gUpdate (gUpdate g x.1 (some (mult * x.2))) y.1
          (some (mult * y.2)))
    rw [gUpdate_comm hyx]
  | @trans a b c h1 h2 ih1 ih2 =>
    intro hnd g
    have hnd2 : (b.map Prod.fst).Nodup := ((h1.map Prod.fst).nodup_iff).mp hnd
    rw [ih1 hnd g, ih2 hnd2 g]

theorem sbcAux_none_iff (mult : K) (pred : K → Bool) (sz : List ℕ) :
    ∀ (pairs : List (List ℤ × K)) (g : List ℤ → Option K),
      (SetBoundaryConditionAux mult pred sz pairs g).2 = none ↔
        ((∀ p ∈ pairs, Inside p.1 sz = true ∧ pred p.2 = true ∧
          g p.1 = none) ∧ (pairs.map Prod.fst).Nodup) := by
  intro pairs
  induction pairs with
  | nil =>
    intro g
    simp [SetBoundaryConditionAux]
  | cons p rest ih =>
    intro g
    obtain ⟨i, d⟩ := p
    simp only [SetBoundaryConditionAux]
    by_cases h1 : Inside i sz = true
    · rw [if_pos h1]
      by_cases h2 : pred d = true
      · rw [if_pos h2]
        by_cases h3 : (g i).isSome = true
        · rw [if_pos h3]
          constructor
          · intro hh
            cases hh
          · rintro ⟨hall, -⟩
            have hgi := (hall (i, d) (List.mem_cons_self _ _)).2.2
            rw [hgi] at h3
            cases h3
        · rw [if_neg h3]
          rw [ih (gUpdate g i (some (mult * d)))]
          have hgi : g i = none := Option.not_isSome_iff_eq_none.mp h3
          constructor
          · rintro ⟨hall, hnd⟩
            constructor
            · intro q hq
              rcases List.mem_cons.mp hq with rfl | hq2
              · exact ⟨h1, h2, hgi⟩
              · obtain ⟨ha, hb, hc⟩ := hall q hq2
                refine ⟨ha, hb, ?_⟩
                simp only [gUpdate] at hc
                by_cases hqi : q.1 = i
                · rw [if_pos hqi] at hc
                  cases hc
                · rw [if_neg hqi] at hc
                  exact hc
            · simp only [List.map_cons, List.nodup_cons]
              refine ⟨?_, hnd⟩
              intro hmem
              obtain ⟨q, hq, hqi⟩ := List.mem_map.mp hmem
              obtain ⟨-, -, hc⟩ := hall q hq
              simp only [gUpdate] at hc
              rw [if_pos hqi] at hc
              cases hc
          · rintro ⟨hall, hnd⟩
            simp only [List.map_cons, List.nodup_cons] at hnd
            refine ⟨?_, hnd.2⟩
            intro q hq
            obtain ⟨ha, hb, hc⟩ := hall q (List.mem_cons_of_mem _ hq)
            refine ⟨ha, hb, ?_⟩
            have hqi : q.1 ≠ i := by
              intro he
              exact hnd.1 (he ▸ List.mem_map_of_mem Prod.fst hq)
            simp only [gUpdate]
            rw [if_neg hqi]
            exact hc
      · rw [if_neg h2]
        constructor
        · intro hh
          cases hh
        · rintro ⟨hall, -⟩
          exact absurd (hall (i, d) (List.mem_cons_self _ _)).2.1 h2
    · rw [if_neg h1]
      constructor
      · intro hh
        cases hh
      · rintro ⟨hall, -⟩
        exact absurd (hall (i, d) (List.mem_cons_self _ _)).1 h1

theorem SetBoundaryCondition_perm (mult : K) (pred : K → Bool)
    (sz : List ℕ) (g0 : List ℤ → Option K) {i1 i2 : List (List ℤ)}
    {d1 d2 : List K} (hlen1 : i1.length = d1.length)
    (hlen2 : i2.length = d2.length)
    (hperm : (i1.zip d1).Perm (i2.zip d2)) {g : List ℤ → Option K}
    (h : SetBoundaryCondition i1 d1 mult pred sz g0 = .ok g) :
    SetBoundaryCondition i2 d2 mult pred sz g0 = .ok g := by
  have hz1 : (i1.zip d1).length = i1.length := by
    rw [List.length_zip, hlen1, min_self]
  have hz2 : (i2.zip d2).length = i2.length := by
    rw [List.length_zip, hlen2, min_self]
  have hlen12 : i2.length = i1.length := by
    rw [← hz1, ← hz2, hperm.length_eq]
  unfold SetBoundaryCondition at h ⊢
  by_cases he1 : i1.isEmpty = true
  · rw [if_pos he1] at h
    cases h
  · rw [if_neg he1] at h
    have he2 : ¬ i2.isEmpty = true := by
      intro hh
      rw [List.isEmpty_iff] at hh
      apply he1
      rw [List.isEmpty_iff, ← List.length_eq_zero, ← hlen12, hh]
      rfl
    rw [if_neg he2]
    rw [if_neg (show ¬ i1.length ≠ d1.length from fun hh => hh hlen1)] at h
    rw [if_neg (show ¬ i2.length ≠ d2.length from fun hh => hh hlen2)]
    cases haux : SetBoundaryConditionAux mult pred sz (i1.zip d1) g0 with
    | mk g1 oe =>
      rw [haux] at h
      cases oe with
      | some e =>
        dsimp only at h
        cases h
      | none =>
        dsimp only at h
        by_cases hwg : i1.length = LinearSize sz
        · rw [if_pos hwg] at h
          cases h
        · rw [if_neg hwg] at h
          have hg : g1 = g := by
            injection h
          obtain ⟨hall, hnd⟩ :=
            (sbcAux_none_iff mult pred sz (i1.zip d1) g0).mp (by rw [haux])
          have hall2 : ∀ p ∈ i2.zip d2, Inside p.1 sz = true ∧
              pred p.2 = true ∧ g0 p.1 = none :=
            fun p hp => hall p (hperm.mem_iff.mpr hp)
          have hnd2 : ((i2.zip d2).map Prod.fst).Nodup :=
            ((hperm.map Prod.fst).nodup_iff).mp hnd
          have haux2 : (SetBoundaryConditionAux mult pred sz
              (i2.zip d2) g0).2 = none :=
            (sbcAux_none_iff mult pred sz _ g0).mpr ⟨hall2, hnd2⟩
          cases haux3 : SetBoundaryConditionAux mult pred sz
              (i2.zip d2) g0 with
          | mk g2 oe2 =>
            rw [haux3] at haux2
            dsimp only at haux2
            subst haux2
            dsimp only
            rw [if_neg (show ¬ i2.length = LinearSize sz from by
              rw [hlen12]; exact hwg)]
            have hg2 : g2 = writeSeeds mult (i2.zip d2) g0 :=
              setBoundaryConditionAux_ok mult pred sz _ g0 g2
                (by rw [haux3])
            have hg1 : g1 = writeSeeds mult (i1.zip d1) g0 :=
              setBoundaryConditionAux_ok mult pred sz _ g0 g1
                (by rw [haux])
            rw [hg2, ← writeSeeds_perm mult hperm hnd g0, ← hg1, hg]

theorem InitialBandGo_eq_bandOf (solve : List ℤ → Except Err K)
    (sz : List ℕ) :
    ∀ (cands : List (List ℤ)) (v : Finset (List ℤ)),
      InitialBandGo solve sz cands v =
        bandOf solve (dedupInsideGo sz cands v) := by
  intro cands
  induction cands with
  | nil => intro v; rfl
  | cons c rest ih =>
    intro v
    simp only [InitialBandGo, dedupInsideGo]
    by_cases hc : (Inside c sz && decide (c ∉ v)) = true
    · rw [if_pos hc, if_pos hc]
      simp only [bandOf]
      cases solve c with
      | error e => rfl
      | ok u => rw [ih]
    · rw [if_neg hc, if_neg hc]
      exact ih v

theorem mem_dedupInsideGo (sz : List ℕ) :
    ∀ (cands : List (List ℤ)) (v : Finset (List ℤ)) (x : List ℤ),
      x ∈ dedupInsideGo sz cands v ↔
        x ∈ cands ∧ Inside x sz = true ∧ x ∉ v := by
  intro cands
  induction cands with
  | nil =>
    intro v x
    simp [dedupInsideGo]
  | cons c rest ih =>
    intro v x
    simp only [dedupInsideGo]
    by_cases hc : (Inside c sz && decide (c ∉ v)) = true
    · rw [if_pos hc]
      simp only [Bool.and_eq_true, decide_eq_true_eq] at hc
      obtain ⟨hc1, hc2⟩ := hc
      simp only [List.mem_cons, ih, Finset.mem_insert]
      constructor
      · rintro (rfl | ⟨hx1, hx2, hx3⟩)
        · exact ⟨Or.inl rfl, hc1, hc2⟩
        · exact ⟨Or.inr hx1, hx2, fun hv => hx3 (Or.inr hv)⟩
      · rintro ⟨rfl | hx1, hx2, hx3⟩
        · exact Or.inl rfl
        · by_cases hxc : x = c
          · exact Or.inl hxc
          · refine Or.inr ⟨hx1, hx2, ?_⟩
            rintro (hh | hh)
            · exact hxc hh
            · exact hx3 hh
    · rw [if_neg hc]
      rw [ih]
      simp only [Bool.and_eq_true, decide_eq_true_eq, not_and, not_not]
        at hc
      simp only [List.mem_cons]
      constructor
      · rintro ⟨hx1, hx2, hx3⟩
        exact ⟨Or.inr hx1, hx2, hx3⟩
      · rintro ⟨rfl | hx1, hx2, hx3⟩
        · exact absurd (hc hx2) hx3
        · exact ⟨hx1, hx2, hx3⟩

theorem nodup_dedupInsideGo (sz : List ℕ) :
    ∀ (cands : List (List ℤ)) (v : Finset (List ℤ)),
      (dedupInsideGo sz cands v).Nodup := by
  intro cands
  induction cands with
  | nil => intro v; simp [dedupInsideGo]
  | cons c rest ih =>
    intro v
    simp only [dedupInsideGo]
    by_cases hc : (Inside c sz && decide (c ∉ v)) = true
    · rw [if_pos hc]
      refine List.nodup_cons.mpr ⟨?_, ih _⟩
      intro hmem
      rw [mem_dedupInsideGo] at hmem
      exact hmem.2.2 (Finset.mem_insert_self c v)
    · rw [if_neg hc]
      exact ih v

theorem dedupInsideGo_perm (sz : List ℕ) {c1 c2 : List (List ℤ)}
    (hperm : c1.Perm c2) (v : Finset (List ℤ)) :
    (dedupInsideGo sz c1 v).Perm (dedupInsideGo sz c2 v) := by
  apply List.perm_of_nodup_nodup_toFinset_eq (nodup_dedupInsideGo sz c1 v)
    (nodup_dedupInsideGo sz c2 v)
  ext x
  simp only [List.mem_toFinset, mem_dedupInsideGo, hperm.mem_iff]

theorem bandOf_perm (solve : List ℤ → Except Err K) :
    ∀ {k1 k2 : List (List ℤ)}, k1.Perm k2 →
      ∀ {l1 : List (K × List ℤ)}, bandOf solve k1 = .ok l1 →
      ∃ l2, bandOf solve k2 = .ok l2 ∧ l1.Perm l2 := by
  intro k1 k2 hperm
  induction hperm with
  | nil =>
    intro l1 h
    exact ⟨l1, h, List.Perm.refl l1⟩
  | @cons x t1 t2 hp ih =>
    intro l1 hok
    simp only [bandOf] at hok ⊢
    cases hsx : solve x with
    | error e =>
      rw [hsx] at hok
      simp at hok
    | ok u =>
      rw [hsx] at hok
      dsimp only at hok ⊢
      cases hb : bandOf solve t1 with
      | error e =>
        rw [hb] at hok
        simp [Except.map] at hok
      | ok m1 =>
        rw [hb] at hok
        simp only [Except.map] at hok
        obtain rfl : (u, x) :: m1 = l1 := by injection hok
        obtain ⟨m2, hm2, hpm⟩ := ih hb
        refine ⟨(u, x) :: m2, ?_, hpm.cons (u, x)⟩
        rw [hm2]
        rfl
  | @swap x y l =>
    intro l1 hok
    simp only [bandOf] at hok ⊢
    cases hsy : solve y with
    | error e =>
      rw [hsy] at hok
      simp at hok
    | ok uy =>
      rw [hsy] at hok
      dsimp only at hok ⊢
      cases hsx : solve x with
      | error e =>
        rw [hsx] at hok
        simp [Except.map] at hok
      | ok ux =>
        rw [hsx] at hok
        dsimp only at hok ⊢
        cases hb : bandOf solve l with
        | error e =>
          rw [hb] at hok
          simp [Except.map] at hok
        | ok m =>
          rw [hb] at hok
          simp only [Except.map] at hok ⊢
          obtain rfl : (uy, y) :: (ux, x) :: m = l1 := by injection hok
          exact ⟨(ux, x) :: (uy, y) :: m, rfl,
            List.Perm.swap (ux, x) (uy, y) m⟩
  | @trans a b c h1 h2 ih1 ih2 =>
    intro l1 hok
    obtain ⟨l2, hb2, p2⟩ := ih1 hok
    obtain ⟨l3, hb3, p3⟩ := ih2 hb2
    exact ⟨l3, hb3, p2.trans p3⟩

theorem InitialUnsignedNarrowBand_perm (solve : List ℤ → Except Err K)
    (sz : List ℕ) {i1 i2 : List (List ℤ)} (hperm : i1.Perm i2)
    {band1 : List (K × List ℤ)}
    (h : InitialUnsignedNarrowBand solve sz i1 = .ok band1) :
    ∃ band2, InitialUnsignedNarrowBand solve sz i2 = .ok band2 ∧
      band1.Perm band2 := by
  unfold InitialUnsignedNarrowBand at h ⊢
  rw [InitialBandGo_eq_bandOf] at h ⊢
  have hc : (i1.flatMap (faceCandidates sz)).Perm
      (i2.flatMap (faceCandidates sz)) :=
    hperm.flatMap_right (faceCandidates sz)
  exact bandOf_perm solve (dedupInsideGo_perm sz hc ∅) h

/-- C9: running the unsigned driver with the seed index list and the
seed distance list both reordered by the same permutation returns a
distance grid equal, cell for cell, to the grid of the original
ordering, for every ordering on which the driver succeeds. (The narrow
band resolves the heap's tie-breaking among equal distances by a fixed
total order on entries, as the spec permits for the unspecified
`std::priority_queue` tie order.) -/
theorem C9_unsigned_permutation_invariant {K : Type}
    [LinearOrderedField K]
    (solver : List ℤ → (List ℤ → Option K) → Except Err K) (sz : List ℕ)
    (i1 i2 : List (List ℤ)) (d1 d2 : List K)
    (hlen1 : i1.length = d1.length) (hlen2 : i2.length = d2.length)
    (hperm : (i1.zip d1).Perm (i2.zip d2))
    (hok : errOf (UnsignedDistance solver sz i1 d1) = none) :
    UnsignedDistance solver sz i2 d2 = UnsignedDistance solver sz i1 d1 := by
  have hi : i1.Perm i2 := by
    have h1 : (i1.zip d1).map Prod.fst = i1 :=
      List.map_fst_zip i1 d1 (le_of_eq hlen1)
    have h2 : (i2.zip d2).map Prod.fst = i2 :=
      List.map_fst_zip i2 d2 (le_of_eq hlen2)
    rw [← h1, ← h2]
    exact hperm.map Prod.fst
  cases hsbc : SetBoundaryCondition i1 d1 1 (fun d => decide (0 ≤ d)) sz
      (fun _ => none) with
  | error e =>
    have hud : UnsignedDistance solver sz i1 d1 = .error e := by
      unfold UnsignedDistance
      rw [hsbc]
    rw [hud] at hok
    simp [errOf] at hok
  | ok g =>
    have hsbc2 : SetBoundaryCondition i2 d2 1 (fun d => decide (0 ≤ d)) sz
        (fun _ => none) = .ok g :=
      SetBoundaryCondition_perm 1 (fun d => decide (0 ≤ d)) sz
        (fun _ => none) hlen1 hlen2 hperm hsbc
    cases hband : InitialUnsignedNarrowBand (fun c => solver c g) sz i1 with
    | error e =>
      have hud : UnsignedDistance solver sz i1 d1 = .error e := by
        unfold UnsignedDistance
        rw [hsbc]
        dsimp only
        rw [hband]
      rw [hud] at hok
      simp [errOf] at hok
    | ok band1 =>
      obtain ⟨band2, hband2, hbp⟩ :=
        InitialUnsignedNarrowBand_perm (fun c => solver c g) sz hi hband
      unfold UnsignedDistance
      rw [hsbc, hsbc2]
      dsimp only
      rw [hband, hband2]
      dsimp only
      rw [MarchNarrowBand_perm solver sz g hbp.symm]

/-- C9 witness: swapping the two seeds of a 1-D extent-3 run over ℚ
leaves the resulting distance grid unchanged. -/
theorem C9_unsigned_permutation_invariant_witness :
    ([[0], [2]] : List (List ℤ)).length = ([0, 1] : List ℚ).length ∧
    ([[2], [0]] : List (List ℤ)).length = ([1, 0] : List ℚ).length ∧
    (([[0], [2]] : List (List ℤ)).zip ([0, 1] : List ℚ)).Perm
      (([[2], [0]] : List (List ℤ)).zip ([1, 0] : List ℚ)) ∧
    errOf (UnsignedDistance q7Solver [3] [[0], [2]] [0, 1]) = none ∧
    UnsignedDistance q7Solver [3] [[2], [0]] [1, 0] =
      UnsignedDistance q7Solver [3] [[0], [2]] [0, 1] :=
  ⟨rfl, rfl, List.Perm.swap ([2], 1) ([0], 0) [], by decide,
    C9_unsigned_permutation_invariant q7Solver [3] [[0], [2]] [[2], [0]]
      [0, 1] [1, 0] rfl rfl (List.Perm.swap ([2], 1) ([0], 0) [])
      (by decide)⟩

end PermutationTheorems

end FMM
